import Mathlib

/-
  Verification development for the mh-z19c driver crate.

  The definitions below are a shallow embedding of the crate's core
  modules: src/command.rs, src/frame.rs, src/nb_comm.rs and src/lib.rs.
  Bytes are modelled as Nat with explicit reduction modulo 256 where the
  Rust code relies on u8 wrap-around.  Fallible code (panics such as
  out-of-bounds indexing or Option::unwrap) is modelled by Option with
  none standing for the panic.  The generic serial transport
  (embedded_hal::serial::Read + Write with error type E) is modelled by
  an explicit record of state-passing operations.
-/

set_option autoImplicit false

/-- Result type mirroring nb::Result: success, WouldBlock, or a fatal error. -/
inductive NbRes (ε α : Type) where
  | ok (value : α)
  | wouldBlock
  | err (error : ε)
deriving DecidableEq

/-- Operations of a serial transport with state type υ and error type ε,
mirroring the embedded_hal Read, Write and flush methods used by the crate. -/
structure UartOps (υ ε : Type) where
  read : υ → NbRes ε Nat × υ
  write : Nat → υ → NbRes ε Unit × υ
  flush : υ → NbRes ε Unit × υ

/-- Checksum from frame.rs: fold over the buffer with wrapping u8
subtraction, starting from accumulator 0. -/
def checksum (buf : List Nat) : Nat :=
  buf.foldl (fun acc x => (acc + (256 - x % 256)) % 256) 0

/-- Commands understood by the sensor (command.rs). -/
inductive Command where
  | readCo2AndTemperature
  | readCo2
  | getFirmwareVersion
  | setSelfCalibrate (enabled : Bool)
deriving DecidableEq

/-- Op code of a command (command.rs). -/
def Command.op_code : Command → Nat
  | .readCo2AndTemperature => 0x85
  | .readCo2 => 0x86
  | .getFirmwareVersion => 0xA0
  | .setSelfCalibrate _ => 0x79

/-- Serialization of a command into the six op-code/argument bytes (command.rs). -/
def Command.serialize : Command → List Nat
  | .readCo2AndTemperature => [Command.readCo2AndTemperature.op_code, 0, 0, 0, 0, 0]
  | .readCo2 => [Command.readCo2.op_code, 0, 0, 0, 0, 0]
  | .getFirmwareVersion => [Command.getFirmwareVersion.op_code, 0, 0, 0, 0, 0]
  | .setSelfCalibrate true => [(Command.setSelfCalibrate true).op_code, 0xa0, 0, 0, 0, 0]
  | .setSelfCalibrate false => [(Command.setSelfCalibrate false).op_code, 0, 0, 0, 0, 0]

def START_BYTE : Nat := 0xff

def COMMAND_MAGIC_BYTE : Nat := 0x01

/-- A 9-byte serial communication frame (frame.rs). -/
structure Frame where
  bytes : List Nat
deriving DecidableEq

/-- Frame construction from a command (impl From of Command for Frame in frame.rs):
start byte, magic byte, six serialized command bytes, checksum of bytes 1..7. -/
def Frame.fromCommand (command : Command) : Frame :=
  let head := START_BYTE :: COMMAND_MAGIC_BYTE :: command.serialize
  ⟨head ++ [checksum (head.drop 1)]⟩

/-- Frame::new, wrapping raw received bytes without validation. -/
def Frame.new (data : List Nat) : Frame := ⟨data⟩

def Frame.start_byte (f : Frame) : Nat := f.bytes.getD 0 0

def Frame.has_valid_start_byte (f : Frame) : Bool := f.start_byte == START_BYTE

/-- A frame is a response when byte 1 differs from the command magic byte. -/
def Frame.is_response (f : Frame) : Bool := f.bytes.getD 1 0 != COMMAND_MAGIC_BYTE

/-- Op code of the frame: byte 1 for responses, byte 2 for commands. -/
def Frame.op_code (f : Frame) : Nat :=
  if f.is_response then f.bytes.getD 1 0 else f.bytes.getD 2 0

def Frame.checksumByte (f : Frame) : Nat := f.bytes.getD 8 0

/-- Data bytes of a frame: bytes 2..8 for responses, bytes 3..8 for commands. -/
def Frame.data (f : Frame) : List Nat :=
  if f.is_response then (f.bytes.drop 2).take 6 else (f.bytes.drop 3).take 5

def Frame.has_valid_checksum (f : Frame) : Bool :=
  checksum ((f.bytes.drop 1).take 7) == f.checksumByte

/-- Frame validation errors (frame.rs). -/
inductive ValidateFrameError where
  | invalidStartByte (got : Nat)
  | invalidChecksum (expected actual : Nat)
deriving DecidableEq

/-- Frame::validate: start byte is checked first, then the checksum. -/
def Frame.validate (f : Frame) : Except ValidateFrameError Unit :=
  if !f.has_valid_start_byte then .error (.invalidStartByte f.start_byte)
  else if !f.has_valid_checksum then
    .error (.invalidChecksum (checksum ((f.bytes.drop 1).take 7)) f.checksumByte)
  else .ok ()

/-
  nb_comm.rs: the primitive futures WriteAll and ReadMultiple and the
  composite future WriteAndReadResponse.  Each poll loop is embedded as a
  structurally recursive function on an explicit fuel argument that is
  instantiated with a bound on the number of loop iterations the Rust
  loop can perform (each iteration either returns or advances the cursor
  towards the buffer length).  A none result models a Rust panic
  (out-of-bounds indexing); the fuel bounds are chosen large enough that
  fuel exhaustion is unreachable.
-/

variable {υ ε : Type}

/-- State of the WriteAll future (nb_comm.rs). -/
structure WriteAll (υ : Type) where
  uart : υ
  buf : List Nat
  bytes_written : Nat
deriving DecidableEq

/-- Loop body of WriteAll::poll: index the byte at the cursor (panic if out
of bounds), write it, advance the cursor, return Ok once the cursor reaches
the buffer length, and return any transport error unchanged. -/
def WriteAll.pollGo (iface : UartOps υ ε) (buf : List Nat) :
    Nat → υ → Nat → Option (NbRes ε Unit × υ × Nat)
  | 0, _, _ => none
  | fuel + 1, u, bw =>
    match buf[bw]? with
    | none => none
    | some c =>
      match iface.write c u with
      | (.ok _, u') =>
        if bw + 1 ≥ buf.length then some (.ok (), u', bw + 1)
        else WriteAll.pollGo iface buf fuel u' (bw + 1)
      | (.wouldBlock, u') => some (.wouldBlock, u', bw)
      | (.err e, u') => some (.err e, u', bw)

/-- WriteAll::poll. -/
def WriteAll.poll (iface : UartOps υ ε) (w : WriteAll υ) :
    Option (NbRes ε Unit × WriteAll υ) :=
  (WriteAll.pollGo iface w.buf (w.buf.length - w.bytes_written + 1) w.uart w.bytes_written).map
    (fun r => (r.1, ⟨r.2.1, w.buf, r.2.2⟩))

/-- WriteAll::into_return_value. -/
def WriteAll.into_return_value (w : WriteAll υ) : υ := w.uart

/-- State of the ReadMultiple future (nb_comm.rs). -/
structure ReadMultiple (υ : Type) where
  uart : υ
  buf : List Nat
  bytes_read : Nat
  read_len : Nat
deriving DecidableEq

/-- Loop body of ReadMultiple::poll: read a byte, store it at the cursor
(panic if out of bounds), advance the cursor, return Ok once the cursor
reaches read_len, and return any transport error unchanged. -/
def ReadMultiple.pollGo (iface : UartOps υ ε) (read_len : Nat) :
    Nat → υ → List Nat → Nat → Option (NbRes ε Unit × υ × List Nat × Nat)
  | 0, _, _, _ => none
  | fuel + 1, u, buf, br =>
    match iface.read u with
    | (.ok c, u') =>
      if br < buf.length then
        if br + 1 ≥ read_len then some (.ok (), u', buf.set br c, br + 1)
        else ReadMultiple.pollGo iface read_len fuel u' (buf.set br c) (br + 1)
      else none
    | (.wouldBlock, u') => some (.wouldBlock, u', buf, br)
    | (.err e, u') => some (.err e, u', buf, br)

/-- ReadMultiple::poll. -/
def ReadMultiple.poll (iface : UartOps υ ε) (r : ReadMultiple υ) :
    Option (NbRes ε Unit × ReadMultiple υ) :=
  (ReadMultiple.pollGo iface r.read_len (r.read_len - r.bytes_read + 1)
      r.uart r.buf r.bytes_read).map
    (fun x => (x.1, ⟨x.2.1, x.2.2.1, x.2.2.2, r.read_len⟩))

/-- ReadMultiple::into_return_value. -/
def ReadMultiple.into_return_value (r : ReadMultiple υ) : υ × List Nat := (r.uart, r.buf)

/-- Sub-state of WriteAndReadResponse (nb_comm.rs). -/
inductive WARState (υ : Type) where
  | write (future : WriteAll υ) (read_buf : List Nat) (response_len : Nat)
  | flush (uart : υ) (read_buf : List Nat) (response_len : Nat)
  | read (future : ReadMultiple υ)
  | completed (uart : υ) (read_buf : List Nat)
deriving DecidableEq

/-- WriteAndReadResponse::new: start in the Write sub-state with a fresh
WriteAll future over the write buffer. -/
def WARState.new (uart : υ) (write_buf read_buf : List Nat) (response_len : Nat) : WARState υ :=
  .write ⟨uart, write_buf, 0⟩ read_buf response_len

/-- WriteAndReadResponseState::advance: poll the current sub-state once; on
completion of the sub-step move to the next sub-state (inl), otherwise keep
the sub-state and report the pending error (inr). -/
def WARState.advance (iface : UartOps υ ε) :
    WARState υ → Option (WARState υ ⊕ (WARState υ × NbRes ε Unit))
  | .write future read_buf response_len =>
    match WriteAll.poll iface future with
    | none => none
    | some (.ok _, f') => some (.inl (.flush f'.into_return_value read_buf response_len))
    | some (.wouldBlock, f') => some (.inr (.write f' read_buf response_len, .wouldBlock))
    | some (.err e, f') => some (.inr (.write f' read_buf response_len, .err e))
  | .flush uart read_buf response_len =>
    match iface.flush uart with
    | (.ok _, u') => some (.inl (.read ⟨u', read_buf, 0, response_len⟩))
    | (.wouldBlock, u') => some (.inr (.flush u' read_buf response_len, .wouldBlock))
    | (.err e, u') => some (.inr (.flush u' read_buf response_len, .err e))
  | .read future =>
    match ReadMultiple.poll iface future with
    | none => none
    | some (.ok _, f') => some (.inl (.completed f'.into_return_value.1 f'.into_return_value.2))
    | some (.wouldBlock, f') => some (.inr (.read f', .wouldBlock))
    | some (.err e, f') => some (.inr (.read f', .err e))
  | .completed uart read_buf => some (.inl (.completed uart read_buf))

/-- WriteAndReadResponseState::cancel: reclaim the transport and read buffer. -/
def WARState.cancel : WARState υ → υ × List Nat
  | .write future read_buf _ => (future.into_return_value, read_buf)
  | .flush uart read_buf _ => (uart, read_buf)
  | .read future => future.into_return_value
  | .completed uart read_buf => (uart, read_buf)

def WARState.isCompleted : WARState υ → Bool
  | .completed _ _ => true
  | _ => false

/-- Loop body of WriteAndReadResponse::poll: advance; if the new sub-state is
Completed return Ok, if the advance reported an error return it, else loop. -/
def WARState.pollGo (iface : UartOps υ ε) :
    Nat → WARState υ → Option (NbRes ε Unit × WARState υ)
  | 0, _ => none
  | fuel + 1, s =>
    match WARState.advance iface s with
    | none => none
    | some (.inl ns) =>
      if ns.isCompleted then some (.ok (), ns) else WARState.pollGo iface fuel ns
    | some (.inr (ns, e)) =>
      if ns.isCompleted then some (.ok (), ns) else some (e, ns)

/-- WriteAndReadResponse::poll.  A successful advance strictly moves the
sub-state forward in the order Write, Flush, Read, Completed, so four loop
iterations always suffice. -/
def WARState.poll (iface : UartOps υ ε) (s : WARState υ) :
    Option (NbRes ε Unit × WARState υ) :=
  WARState.pollGo iface 4 s

/-
  lib.rs: the sensor driver MhZ19C.  Each public operation in the Rust
  code is a loop whose body (1) lazily starts the operation when the
  driver is Idle, (2) polls the current in-flight future, (3) on
  completion takes the state, and either unpacks the result when the
  completed operation matches the requested one, or recovers the uart
  and loops.  After a recovery the state is Idle, and from Idle one more
  iteration always returns, so the loop is embedded as one step function
  iterated at most twice.
-/

/-- Error type of the driver (lib.rs). -/
inductive Error (ε : Type) where
  | validateFrameError (e : ValidateFrameError)
  | notAResponse
  | opCodeMismatch (expected got : Nat)
  | uartError (e : ε)
  | notSupportedByFirmware (version : List Nat)
deriving DecidableEq

/-- Typed result of a completed public driver operation. -/
inductive OpResult where
  | co2 (ppm : Nat)
  | firmwareVersion (version : List Nat)
  | unitResult
  | co2AndTemp (co2_ppm temp_raw : Nat)
deriving DecidableEq

/-- Driver state (enum MhZ19CState in lib.rs): Idle or one in-flight future. -/
inductive MhZ19CState (υ : Type) where
  | idle
  | readCo2AndTemperature (future : WARState υ)
  | readCo2 (future : WARState υ)
  | getFirmwareVersion (future : WARState υ)
  | setSelfCalibrate (future : WriteAll υ)
deriving DecidableEq

/-- The driver struct (lib.rs): the uart slot is occupied exactly while Idle. -/
structure MhZ19C (υ : Type) where
  state : MhZ19CState υ
  uart : Option υ
deriving DecidableEq

def MhZ19C.new (uart : υ) : MhZ19C υ := ⟨.idle, some uart⟩

def MhZ19CState.isIdle : MhZ19CState υ → Bool
  | .idle => true
  | _ => false

def mapUartErr : NbRes ε Unit → NbRes (Error ε) Unit
  | .ok v => .ok v
  | .wouldBlock => .wouldBlock
  | .err e => .err (.uartError e)

/-- MhZ19C::poll: poll whichever future is in flight, tagging fatal
transport errors as UartError.  Idle polls to Ok immediately. -/
def MhZ19C.pollState (iface : UartOps υ ε) :
    MhZ19CState υ → Option (NbRes (Error ε) Unit × MhZ19CState υ)
  | .idle => some (.ok (), .idle)
  | .readCo2AndTemperature f =>
    (WARState.poll iface f).map (fun p => (mapUartErr p.1, .readCo2AndTemperature p.2))
  | .readCo2 f =>
    (WARState.poll iface f).map (fun p => (mapUartErr p.1, .readCo2 p.2))
  | .getFirmwareVersion f =>
    (WARState.poll iface f).map (fun p => (mapUartErr p.1, .getFirmwareVersion p.2))
  | .setSelfCalibrate f =>
    (WriteAll.poll iface f).map (fun p => (mapUartErr p.1, .setSelfCalibrate p.2))

/-- MhZ19C::recover_uart: move the transport owned by a taken state back
into the uart slot (no-op for Idle). -/
def MhZ19C.recover_uart (m : MhZ19C υ) : MhZ19CState υ → MhZ19C υ
  | .idle => m
  | .readCo2AndTemperature f => { m with uart := some f.cancel.1 }
  | .readCo2 f => { m with uart := some f.cancel.1 }
  | .getFirmwareVersion f => { m with uart := some f.cancel.1 }
  | .setSelfCalibrate f => { m with uart := some f.into_return_value }

/-- MhZ19C::unpack_return_frame: validate, require a response, require the
op code of the issued command, and extract the data bytes. -/
def unpack_return_frame {ε : Type} (command : Command) (frame : Frame) :
    Except (Error ε) (List Nat) :=
  match frame.validate with
  | .error e => .error (.validateFrameError e)
  | .ok _ =>
    if !frame.is_response then .error .notAResponse
    else if frame.op_code ≠ command.op_code then
      .error (.opCodeMismatch command.op_code frame.op_code)
    else .ok frame.data

def u16_from_be_bytes (hi lo : Nat) : Nat := hi * 256 + lo

/-- The state started for an operation when the driver is Idle: a
WriteAndReadResponse future over the command frame with a 9-byte response
buffer for the three read operations, a plain WriteAll future over the
frame for set_self_calibrate. -/
def startState (op : Command) (uart : υ) : MhZ19CState υ :=
  match op with
  | .readCo2 =>
    .readCo2 (WARState.new uart (Frame.fromCommand .readCo2).bytes (List.replicate 9 0) 9)
  | .readCo2AndTemperature =>
    .readCo2AndTemperature
      (WARState.new uart (Frame.fromCommand .readCo2AndTemperature).bytes (List.replicate 9 0) 9)
  | .getFirmwareVersion =>
    .getFirmwareVersion
      (WARState.new uart (Frame.fromCommand .getFirmwareVersion).bytes (List.replicate 9 0) 9)
  | .setSelfCalibrate enabled =>
    .setSelfCalibrate ⟨uart, (Frame.fromCommand (.setSelfCalibrate enabled)).bytes, 0⟩

/-- Unpack the completed future of the operation whose kind matches the
request: restore the uart to the slot, then decode the response frame
(read operations) or return unit (set_self_calibrate).  The catch-all
case is the kind mismatch: recover the uart and continue the loop (inr). -/
def MhZ19C.decodeFinish (command : Command) (m3 : MhZ19C υ) (future : WARState υ)
    (mk : List Nat → OpResult) : (NbRes (Error ε) OpResult × MhZ19C υ) ⊕ MhZ19C υ :=
  match unpack_return_frame command (Frame.new future.cancel.2) with
  | .error e => .inl (.err e, { m3 with uart := some future.cancel.1 })
  | .ok data => .inl (.ok (mk data), { m3 with uart := some future.cancel.1 })

def MhZ19C.stepFinish (op : Command) (m3 : MhZ19C υ) (taken : MhZ19CState υ) :
    (NbRes (Error ε) OpResult × MhZ19C υ) ⊕ MhZ19C υ :=
  match op, taken with
  | .readCo2, .readCo2 future =>
    MhZ19C.decodeFinish .readCo2 m3 future
      (fun data => .co2 (u16_from_be_bytes (data.getD 0 0) (data.getD 1 0)))
  | .getFirmwareVersion, .getFirmwareVersion future =>
    MhZ19C.decodeFinish .getFirmwareVersion m3 future
      (fun data =>
        .firmwareVersion [data.getD 0 0, data.getD 1 0, data.getD 2 0, data.getD 3 0])
  | .readCo2AndTemperature, .readCo2AndTemperature future =>
    MhZ19C.decodeFinish .readCo2AndTemperature m3 future
      (fun data => .co2AndTemp (u16_from_be_bytes (data.getD 2 0) (data.getD 3 0))
        (u16_from_be_bytes (data.getD 0 0) (data.getD 1 0)))
  | .setSelfCalibrate _, .setSelfCalibrate future =>
    .inl (.ok .unitResult, { m3 with uart := some future.into_return_value })
  | _, takenState => .inr (m3.recover_uart takenState)

/-- One iteration of the loop body shared by every public operation, after
the lazy start: poll, propagate WouldBlock and fatal errors (inl), on
completion take the state and finish or recover (stepFinish). -/
def MhZ19C.stepGo (iface : UartOps υ ε) (op : Command) (m1 : MhZ19C υ) :
    Option ((NbRes (Error ε) OpResult × MhZ19C υ) ⊕ MhZ19C υ) :=
  match MhZ19C.pollState iface m1.state with
  | none => none
  | some (.wouldBlock, s') => some (.inl (.wouldBlock, { m1 with state := s' }))
  | some (.err e, s') => some (.inl (.err e, { m1 with state := s' }))
  | some (.ok _, s') =>
    some (MhZ19C.stepFinish op { m1 with state := .idle } s')

/-- One iteration of the public-operation loop, including the lazy start:
when Idle, take the uart out of the slot (panic if the slot is empty) and
start the operation's future. -/
def MhZ19C.stepOp (iface : UartOps υ ε) (op : Command) (m : MhZ19C υ) :
    Option ((NbRes (Error ε) OpResult × MhZ19C υ) ⊕ MhZ19C υ) :=
  match m.state, m.uart with
  | .idle, none => none
  | .idle, some u => MhZ19C.stepGo iface op { state := startState op u, uart := none }
  | _, _ => MhZ19C.stepGo iface op m

/-- A public driver operation: the Rust loop.  A continue (inr) leaves the
driver Idle with the uart recovered, and from Idle an iteration never
continues again, so two iterations always suffice. -/
def MhZ19C.callOp (iface : UartOps υ ε) (op : Command) (m : MhZ19C υ) :
    Option (NbRes (Error ε) OpResult × MhZ19C υ) :=
  match MhZ19C.stepOp iface op m with
  | none => none
  | some (.inl r) => some r
  | some (.inr m') =>
    match MhZ19C.stepOp iface op m' with
    | none => none
    | some (.inl r) => some r
    | some (.inr _) => none

/-- BaseApi::read_co2_ppm for MhZ19C. -/
def MhZ19C.read_co2_ppm (iface : UartOps υ ε) (m : MhZ19C υ) :
    Option (NbRes (Error ε) OpResult × MhZ19C υ) :=
  MhZ19C.callOp iface .readCo2 m

/-- BaseApi::get_firmware_version for MhZ19C. -/
def MhZ19C.get_firmware_version (iface : UartOps υ ε) (m : MhZ19C υ) :
    Option (NbRes (Error ε) OpResult × MhZ19C υ) :=
  MhZ19C.callOp iface .getFirmwareVersion m

/-- BaseApi::set_self_calibrate for MhZ19C. -/
def MhZ19C.set_self_calibrate (iface : UartOps υ ε) (m : MhZ19C υ) (enabled : Bool) :
    Option (NbRes (Error ε) OpResult × MhZ19C υ) :=
  MhZ19C.callOp iface (.setSelfCalibrate enabled) m

/-- Firmware5Api::read_co2_and_temp for MhZ19CFw5 (operates on the wrapped driver). -/
def MhZ19C.read_co2_and_temp (iface : UartOps υ ε) (m : MhZ19C υ) :
    Option (NbRes (Error ε) OpResult × MhZ19C υ) :=
  MhZ19C.callOp iface .readCo2AndTemperature m

/-- MhZ19C::into_inner: take the uart out of the slot when Idle (panic if
the slot is empty), otherwise reclaim it from the in-flight future. -/
def MhZ19C.into_inner (m : MhZ19C υ) : Option υ :=
  match m.state with
  | .idle => m.uart
  | .readCo2AndTemperature f => some f.cancel.1
  | .readCo2 f => some f.cancel.1
  | .getFirmwareVersion f => some f.cancel.1
  | .setSelfCalibrate f => some f.into_return_value

def fwVersionOf : OpResult → List Nat
  | .firmwareVersion v => v
  | _ => []

/-- MhZ19C::upgrade_to_v5: drive get_firmware_version, propagate WouldBlock
and errors; succeed (yielding the Firmware5Api capability over the same
driver) exactly when byte 1 of the version is at least the character 5. -/
def MhZ19C.upgrade_to_v5 (iface : UartOps υ ε) (m : MhZ19C υ) :
    Option (NbRes (Error ε) Unit × MhZ19C υ) :=
  match MhZ19C.get_firmware_version iface m with
  | none => none
  | some (.wouldBlock, m') => some (.wouldBlock, m')
  | some (.err e, m') => some (.err e, m')
  | some (.ok res, m') =>
    let fw_version := fwVersionOf res
    if 0x35 ≤ fw_version.getD 1 0 then some (.ok (), m')
    else some (.err (.notSupportedByFirmware fw_version), m')

/-
  A scripted serial transport, in the style of the crate's SerialMock
  test double: a queue of read results and a queue of write results
  (an exhausted queue yields WouldBlock), a write log, and additionally
  a queue of flush results (an exhausted queue yields Ok, like the
  crate's mock whose flush always succeeds) and a log of the bytes
  successfully delivered by read, so that read behaviour is observable.
-/

/-- Scripted transport state. -/
structure SerialMock (ε : Type) where
  readReturns : List (NbRes ε Nat)
  writeReturns : List (NbRes ε Unit)
  flushReturns : List (NbRes ε Unit)
  writeBuf : List Nat
  readDelivered : List Nat
deriving DecidableEq

def SerialMock.readOp : SerialMock ε → NbRes ε Nat × SerialMock ε
  | m =>
    match m.readReturns with
    | [] => (.wouldBlock, m)
    | .ok c :: rest =>
      (.ok c, { m with readReturns := rest, readDelivered := m.readDelivered ++ [c] })
    | .wouldBlock :: rest => (.wouldBlock, { m with readReturns := rest })
    | .err e :: rest => (.err e, { m with readReturns := rest })

def SerialMock.writeOp (c : Nat) : SerialMock ε → NbRes ε Unit × SerialMock ε
  | m =>
    match m.writeReturns with
    | [] => (.wouldBlock, m)
    | .ok _ :: rest =>
      (.ok (), { m with writeReturns := rest, writeBuf := m.writeBuf ++ [c] })
    | .wouldBlock :: rest => (.wouldBlock, { m with writeReturns := rest })
    | .err e :: rest => (.err e, { m with writeReturns := rest })

def SerialMock.flushOp : SerialMock ε → NbRes ε Unit × SerialMock ε
  | m =>
    match m.flushReturns with
    | [] => (.ok (), m)
    | r :: rest => (r, { m with flushReturns := rest })

/-- The UartOps instance of the scripted transport. -/
def mockOps (ε : Type) : UartOps (SerialMock ε) ε :=
  ⟨SerialMock.readOp, fun c => SerialMock.writeOp c, SerialMock.flushOp⟩

/-- Fresh mock with given read and write scripts. -/
def mkMock (reads : List (NbRes Nat Nat)) (writes : List (NbRes Nat Unit)) : SerialMock Nat :=
  ⟨reads, writes, [], [], []⟩

/-- Read-CO2 response fixture from the spec: 800 ppm. -/
def READ_CO2_RESPONSE : List Nat := [0xff, 0x86, 0x03, 0x20, 0x12, 0x34, 0x56, 0x78, 0x43]

/-- Firmware-version response reporting the version string 0515. -/
def FIRMWARE_0515_RESPONSE : List Nat :=
  let body := [0xa0, 0x30, 0x35, 0x31, 0x35, 0x00, 0x00]
  0xff :: body ++ [checksum body]

/-- Firmware-version response reporting the version string 0400. -/
def FIRMWARE_0400_RESPONSE : List Nat :=
  let body := [0xa0, 0x30, 0x34, 0x30, 0x30, 0x00, 0x00]
  0xff :: body ++ [checksum body]

/-- Firmware-version response reporting the version string 5000. -/
def FIRMWARE_5000_RESPONSE : List Nat :=
  let body := [0xa0, 0x35, 0x30, 0x30, 0x30, 0x00, 0x00]
  0xff :: body ++ [checksum body]

/-- Combined CO2-and-temperature response: 800 ppm, raw temperature 2400. -/
def READ_CO2_AND_TEMPERATURE_RESPONSE : List Nat :=
  let body := [0x85, 0x09, 0x60, 0x03, 0x20, 0x00, 0x00]
  0xff :: body ++ [checksum body]

/-
  Concrete runs used by the claims: helper to turn raw response bytes into
  a read script of successful byte deliveries.
-/

def oks (l : List Nat) : List (NbRes Nat Nat) := l.map .ok

/-- Mock for the C1 counterexample: the first read suspends, then the full
read-CO2 response is available; all writes succeed. -/
def c1mock : SerialMock Nat :=
  mkMock (.wouldBlock :: oks READ_CO2_RESPONSE) (List.replicate 18 (.ok ()))

/-- C1 counterexample: start read_co2_ppm until it suspends mid-read (driver
Busy with ReadCo2); the next call, set_self_calibrate, completes the
in-flight read-CO2 operation and then, contrary to the claim, does not
return WouldBlock: it starts and completes set_self_calibrate within the
same call, returning Ok. -/
theorem c1_counterexample :
    (MhZ19C.read_co2_ppm (mockOps Nat) (MhZ19C.new c1mock)).map (fun p => p.1) =
      some .wouldBlock ∧
    ((MhZ19C.read_co2_ppm (mockOps Nat) (MhZ19C.new c1mock)).bind
        (fun p => MhZ19C.set_self_calibrate (mockOps Nat) p.2 true)).map (fun p => p.1) =
      some (.ok .unitResult) := by
  constructor
  · rfl
  · rfl

/-- C2 counterexample: a fatal transport error on the very first write of
read_co2_ppm is propagated as UartError, but contrary to the claim the
driver does not recover to Idle: the call ends Busy, with the uart slot
empty (the in-flight future still holds the transport). -/
theorem c2_counterexample :
    (MhZ19C.read_co2_ppm (mockOps Nat) (MhZ19C.new (mkMock [] [.err 7]))).map
        (fun p => (p.1, p.2.state.isIdle, p.2.uart.isSome)) =
      some (.err (.uartError 7), false, false) := by
  rfl

/-- C3 counterexample: the sensor reports firmware version 5000, whose
first digit is the character 5, so by the claim upgrade_to_v5 should
succeed; the code checks byte 1 of the version string (the character 0
here) and fails with NotSupportedByFirmware. -/
theorem c3_counterexample :
    0x35 ≤ [0x35, 0x30, 0x30, 0x30].getD 0 0 ∧
    (MhZ19C.upgrade_to_v5 (mockOps Nat)
        (MhZ19C.new (mkMock (oks FIRMWARE_5000_RESPONSE) (List.replicate 9 (.ok ()))))).map
        (fun p => p.1) =
      some (.err (.notSupportedByFirmware [0x35, 0x30, 0x30, 0x30])) := by
  constructor
  · decide
  · rfl

/-- C7: decoding a read-CO2 exchange delivering the canonical response
yields 800 ppm; with byte 0 replaced by 0x00 it fails with
InvalidStartByte(0x00); with byte 8 replaced by 0x00 it fails with
InvalidChecksum with expected 0x43 and actual 0x00; and on a frame where
both the start byte and the checksum are invalid, validation reports the
start byte first. -/
theorem c7_read_co2_decode :
    (MhZ19C.read_co2_ppm (mockOps Nat)
        (MhZ19C.new (mkMock (oks READ_CO2_RESPONSE) (List.replicate 9 (.ok ()))))).map
        (fun p => p.1) = some (.ok (.co2 800)) ∧
    (MhZ19C.read_co2_ppm (mockOps Nat)
        (MhZ19C.new (mkMock (oks (0x00 :: READ_CO2_RESPONSE.drop 1))
          (List.replicate 9 (.ok ()))))).map (fun p => p.1) =
      some (.err (.validateFrameError (.invalidStartByte 0x00))) ∧
    (MhZ19C.read_co2_ppm (mockOps Nat)
        (MhZ19C.new (mkMock (oks (READ_CO2_RESPONSE.take 8 ++ [0x00]))
          (List.replicate 9 (.ok ()))))).map (fun p => p.1) =
      some (.err (.validateFrameError (.invalidChecksum 0x43 0x00))) ∧
    Frame.validate (Frame.new (0x00 :: (READ_CO2_RESPONSE.drop 1).take 7 ++ [0x00])) =
      .error (.invalidStartByte 0x00) := by
  refine ⟨rfl, rfl, rfl, rfl⟩

/-- C9: set_self_calibrate(true), polled to completion on a transport that
accepts every write, writes exactly the nine bytes
FF 01 79 A0 00 00 00 00 E6 and nothing else; with enabled set to false the
first argument byte is 0x00 and the remaining argument bytes stay 0x00. -/
theorem c9_set_self_calibrate :
    MhZ19C.set_self_calibrate (mockOps Nat)
        (MhZ19C.new (mkMock [] (List.replicate 9 (.ok ())))) true =
      some (.ok .unitResult,
        ⟨.idle, some ⟨[], [], [], [0xff, 0x01, 0x79, 0xa0, 0x00, 0x00, 0x00, 0x00, 0xe6], []⟩⟩) ∧
    MhZ19C.set_self_calibrate (mockOps Nat)
        (MhZ19C.new (mkMock [] (List.replicate 9 (.ok ())))) false =
      some (.ok .unitResult,
        ⟨.idle, some ⟨[], [], [], [0xff, 0x01, 0x79, 0x00, 0x00, 0x00, 0x00, 0x00, 0x86], []⟩⟩) ∧
    Command.serialize (.setSelfCalibrate false) = [0x79, 0, 0, 0, 0, 0] := by
  refine ⟨rfl, rfl, rfl⟩

/-
  Lemmas about the primitive futures.
-/

lemma take_set_succ {α : Type} (l : List α) (n : Nat) (a : α) (h : n < l.length) :
    (l.set n a).take (n + 1) = l.take n ++ [a] := by
  rw [List.take_succ, List.getElem?_set_eq_of_lt a h]
  congr 1
  rw [List.set_eq_take_cons_drop a h]
  simp [List.take_append_eq_append_take, Nat.le_of_lt h]

lemma lt_of_getElem?_eq_some {α : Type} {l : List α} {n : Nat} {a : α}
    (h : l[n]? = some a) : n < l.length := by
  rcases List.getElem?_eq_some.mp h with ⟨hlt, _⟩
  exact hlt

/-- Cursor behaviour of the WriteAll loop: the cursor never moves backwards,
never exceeds the buffer length, reaches exactly the buffer length on Ok,
and stays strictly below it on WouldBlock or a fatal error. -/
lemma writeAll_pollGo_cursor (iface : UartOps υ ε) (buf : List Nat) (fuel : Nat) :
    ∀ (u : υ) (bw : Nat) (r : NbRes ε Unit) (u' : υ) (bw' : Nat),
    WriteAll.pollGo iface buf fuel u bw = some (r, u', bw') →
    bw ≤ bw' ∧ bw' ≤ buf.length ∧ (r = .ok () → bw' = buf.length) ∧
      (r ≠ .ok () → bw' < buf.length) := by
  induction fuel with
  | zero => intro u bw r u' bw' h; simp [WriteAll.pollGo] at h
  | succ fuel ih =>
    intro u bw r u' bw' h
    rw [WriteAll.pollGo] at h
    cases hidx : buf[bw]? with
    | none => rw [hidx] at h; exact absurd h (by simp)
    | some c =>
      rw [hidx] at h
      simp only at h
      have hbw : bw < buf.length := lt_of_getElem?_eq_some hidx
      rcases hw : iface.write c u with ⟨res, u1⟩
      rw [hw] at h
      cases res with
      | ok v =>
        simp only at h
        by_cases hge : bw + 1 ≥ buf.length
        · rw [if_pos hge] at h
          obtain ⟨h1, h2, h3⟩ : r = .ok () ∧ u' = u1 ∧ bw' = bw + 1 := by
            cases h; exact ⟨rfl, rfl, rfl⟩
          subst h1; subst h3
          refine ⟨Nat.le_succ bw, by omega, fun _ => by omega, fun hcon => absurd rfl hcon⟩
        · rw [if_neg hge] at h
          have := ih u1 (bw + 1) r u' bw' h
          exact ⟨by omega, this.2.1, this.2.2.1, this.2.2.2⟩
      | wouldBlock =>
        obtain ⟨h1, h2, h3⟩ : r = .wouldBlock ∧ u' = u1 ∧ bw' = bw := by
          cases h; exact ⟨rfl, rfl, rfl⟩
        subst h1
        refine ⟨?_, ?_, ?_, ?_⟩
        · omega
        · omega
        · intro hcon; cases hcon
        · intro hne; omega
      | err e =>
        obtain ⟨h1, h2, h3⟩ : r = .err e ∧ u' = u1 ∧ bw' = bw := by
          cases h; exact ⟨rfl, rfl, rfl⟩
        subst h1
        refine ⟨?_, ?_, ?_, ?_⟩
        · omega
        · omega
        · intro hcon; cases hcon
        · intro hne; omega

/-- Fuel sufficiency: with the cursor strictly inside the buffer and fuel of
at least the remaining byte count, the WriteAll loop never exhausts its fuel
and never indexes out of bounds. -/
lemma writeAll_pollGo_isSome (iface : UartOps υ ε) (buf : List Nat) (fuel : Nat) :
    ∀ (u : υ) (bw : Nat), bw < buf.length → buf.length - bw ≤ fuel →
    (WriteAll.pollGo iface buf fuel u bw).isSome := by
  induction fuel with
  | zero => intro u bw hlt hf; omega
  | succ fuel ih =>
    intro u bw hlt hf
    rw [WriteAll.pollGo, List.getElem?_eq_getElem hlt]
    simp only
    rcases hw : iface.write (buf[bw]) u with ⟨res, u1⟩
    cases res with
    | ok v =>
      simp only
      by_cases hge : bw + 1 ≥ buf.length
      · simp [hge]
      · simp only [if_neg hge]
        exact ih u1 (bw + 1) (by omega) (by omega)
    | wouldBlock => rfl
    | err e => rfl

/-- On the scripted transport, the WriteAll loop appends exactly the bytes
of the buffer between the old and new cursor to the write log, in order,
and leaves every read-related and flush-related field untouched. -/
lemma writeAll_pollGo_mock {ε : Type} (buf : List Nat) (fuel : Nat) :
    ∀ (u : SerialMock ε) (bw : Nat) (W0 : List Nat) (r : NbRes ε Unit)
      (u' : SerialMock ε) (bw' : Nat),
    u.writeBuf = W0 ++ buf.take bw →
    WriteAll.pollGo (mockOps ε) buf fuel u bw = some (r, u', bw') →
    u'.writeBuf = W0 ++ buf.take bw' ∧ u'.readReturns = u.readReturns ∧
      u'.readDelivered = u.readDelivered ∧ u'.flushReturns = u.flushReturns := by
  induction fuel with
  | zero => intro u bw W0 r u' bw' hW h; simp [WriteAll.pollGo] at h
  | succ fuel ih =>
    intro u bw W0 r u' bw' hW h
    rw [WriteAll.pollGo] at h
    cases hidx : buf[bw]? with
    | none => rw [hidx] at h; exact absurd h (by simp)
    | some c =>
      rw [hidx] at h
      simp only at h
      have hbw : bw < buf.length := lt_of_getElem?_eq_some hidx
      have htake : buf.take (bw + 1) = buf.take bw ++ [c] := by
        rw [List.take_succ, hidx]; rfl
      rcases hwr : u.writeReturns with _ | ⟨wres, wrest⟩
      · rw [show (mockOps ε).write c u = (.wouldBlock, u) by
            simp [mockOps, SerialMock.writeOp, hwr]] at h
        obtain ⟨h1, h2, h3⟩ : r = .wouldBlock ∧ u' = u ∧ bw' = bw := by
          cases h; exact ⟨rfl, rfl, rfl⟩
        subst h2; subst h3
        exact ⟨hW, rfl, rfl, rfl⟩
      · cases wres with
        | ok v =>
          rw [show (mockOps ε).write c u =
              (.ok (), { u with writeReturns := wrest, writeBuf := u.writeBuf ++ [c] }) by
              simp [mockOps, SerialMock.writeOp, hwr]] at h
          simp only at h
          by_cases hge : bw + 1 ≥ buf.length
          · rw [if_pos hge] at h
            obtain ⟨h1, h2, h3⟩ : r = .ok () ∧
                u' = { u with writeReturns := wrest, writeBuf := u.writeBuf ++ [c] } ∧
                bw' = bw + 1 := by
              cases h; exact ⟨rfl, rfl, rfl⟩
            subst h2; subst h3
            refine ⟨?_, rfl, rfl, rfl⟩
            simp [hW, htake]
          · rw [if_neg hge] at h
            have := ih { u with writeReturns := wrest, writeBuf := u.writeBuf ++ [c] }
              (bw + 1) W0 r u' bw' (by simp [hW, htake]) h
            exact ⟨this.1, this.2.1, this.2.2.1, this.2.2.2⟩
        | wouldBlock =>
          rw [show (mockOps ε).write c u = (.wouldBlock, { u with writeReturns := wrest }) by
              simp [mockOps, SerialMock.writeOp, hwr]] at h
          obtain ⟨h1, h2, h3⟩ : r = .wouldBlock ∧ u' = { u with writeReturns := wrest } ∧
              bw' = bw := by
            cases h; exact ⟨rfl, rfl, rfl⟩
          subst h2; subst h3
          exact ⟨hW, rfl, rfl, rfl⟩
        | err e =>
          rw [show (mockOps ε).write c u = (.err e, { u with writeReturns := wrest }) by
              simp [mockOps, SerialMock.writeOp, hwr]] at h
          obtain ⟨h1, h2, h3⟩ : r = .err e ∧ u' = { u with writeReturns := wrest } ∧
              bw' = bw := by
            cases h; exact ⟨rfl, rfl, rfl⟩
          subst h2; subst h3
          exact ⟨hW, rfl, rfl, rfl⟩

/-- WriteAll::poll with the cursor strictly inside the buffer: never a
panic, same buffer, cursor only advances, reaching the length exactly on Ok. -/
lemma writeAll_poll_spec (iface : UartOps υ ε) (w : WriteAll υ)
    (h : w.bytes_written < w.buf.length) :
    ∃ r w', WriteAll.poll iface w = some (r, w') ∧ w'.buf = w.buf ∧
      w.bytes_written ≤ w'.bytes_written ∧ w'.bytes_written ≤ w.buf.length ∧
      (r = .ok () → w'.bytes_written = w.buf.length) ∧
      (r ≠ .ok () → w'.bytes_written < w.buf.length) := by
  have hs := writeAll_pollGo_isSome iface w.buf (w.buf.length - w.bytes_written + 1)
    w.uart w.bytes_written h (by omega)
  rcases hgo : WriteAll.pollGo iface w.buf (w.buf.length - w.bytes_written + 1)
      w.uart w.bytes_written with _ | ⟨r, u', bw'⟩
  · rw [hgo] at hs; cases hs
  · have hc := writeAll_pollGo_cursor iface w.buf (w.buf.length - w.bytes_written + 1)
      w.uart w.bytes_written r u' bw' hgo
    refine ⟨r, ⟨u', w.buf, bw'⟩, ?_, rfl, hc.1, hc.2.1, hc.2.2.1, hc.2.2.2⟩
    rw [WriteAll.poll, hgo]
    rfl

/-- C10: WriteAll::poll indexes the byte at the cursor before checking the
buffer length, so it panics when constructed over an empty buffer, and when
polled again after having returned Ok (cursor already at the buffer
length); with the cursor strictly inside the buffer a poll never panics,
and it leaves the cursor strictly inside the buffer again unless it
returns Ok, so a future that is never polled after Ok never indexes out of
bounds. -/
theorem c10_writeall_panics :
    (∀ (υ ε : Type) (iface : UartOps υ ε) (u : υ),
      WriteAll.poll iface ⟨u, [], 0⟩ = none) ∧
    (∀ (υ ε : Type) (iface : UartOps υ ε) (u : υ) (buf : List Nat),
      WriteAll.poll iface ⟨u, buf, buf.length⟩ = none) ∧
    (∀ (υ ε : Type) (iface : UartOps υ ε) (w : WriteAll υ),
      w.bytes_written < w.buf.length →
      ∃ r w', WriteAll.poll iface w = some (r, w') ∧ w'.buf = w.buf ∧
        w.bytes_written ≤ w'.bytes_written ∧
        (r = .ok () → w'.bytes_written = w.buf.length) ∧
        (r ≠ .ok () → w'.bytes_written < w.buf.length)) := by
  refine ⟨fun υ ε iface u => rfl, fun υ ε iface u buf => ?_, fun υ ε iface w h => ?_⟩
  · rw [WriteAll.poll]
    simp only [Nat.sub_self]
    rw [WriteAll.pollGo]
    simp
  · obtain ⟨r, w', h1, h2, h3, h4, h5, h6⟩ := writeAll_poll_spec iface w h
    exact ⟨r, w', h1, h2, h3, h5, h6⟩

/-- Witness for c10_writeall_panics: a concrete in-bounds poll on the
scripted transport succeeds. -/
theorem c10_writeall_panics_witness :
    (0 : Nat) < (WriteAll.mk (mkMock [] [.ok ()]) [0xab] 0).buf.length ∧
    (WriteAll.poll (mockOps Nat) (WriteAll.mk (mkMock [] [.ok ()]) [0xab] 0)).isSome := by
  constructor
  · decide
  · obtain ⟨r, w', h1, -⟩ :=
      c10_writeall_panics.2.2 (SerialMock Nat) Nat (mockOps Nat)
        (WriteAll.mk (mkMock [] [.ok ()]) [0xab] 0) (by decide)
    rw [h1]
    rfl

/-- Cursor behaviour of the ReadMultiple loop, with the cursor strictly
below read_len at entry: the cursor never moves backwards, the buffer keeps
its length, the cursor reaches exactly read_len on Ok and stays strictly
below it otherwise. -/
lemma readMultiple_pollGo_cursor (iface : UartOps υ ε) (read_len : Nat) (fuel : Nat) :
    ∀ (u : υ) (buf : List Nat) (br : Nat) (r : NbRes ε Unit) (u' : υ)
      (buf' : List Nat) (br' : Nat),
    br < read_len →
    ReadMultiple.pollGo iface read_len fuel u buf br = some (r, u', buf', br') →
    br ≤ br' ∧ buf'.length = buf.length ∧ (r = .ok () → br' = read_len) ∧
      (r ≠ .ok () → br' < read_len) := by
  induction fuel with
  | zero => intro u buf br r u' buf' br' hbr h; simp [ReadMultiple.pollGo] at h
  | succ fuel ih =>
    intro u buf br r u' buf' br' hbr h
    rw [ReadMultiple.pollGo] at h
    rcases hr : iface.read u with ⟨res, u1⟩
    rw [hr] at h
    cases res with
    | ok c =>
      simp only at h
      by_cases hlt : br < buf.length
      · rw [if_pos hlt] at h
        by_cases hge : br + 1 ≥ read_len
        · rw [if_pos hge] at h
          obtain ⟨h1, h2, h3, h4⟩ : r = .ok () ∧ u' = u1 ∧ buf' = buf.set br c ∧
              br' = br + 1 := by cases h; exact ⟨rfl, rfl, rfl, rfl⟩
          subst h1; subst h3; subst h4
          refine ⟨by omega, by simp, fun _ => by omega, ?_⟩
          intro hcon; exact absurd rfl hcon
        · rw [if_neg hge] at h
          have := ih u1 (buf.set br c) (br + 1) r u' buf' br' (by omega) h
          refine ⟨by omega, ?_, this.2.2.1, this.2.2.2⟩
          rw [this.2.1]; simp
      · rw [if_neg hlt] at h; cases h
    | wouldBlock =>
      obtain ⟨h1, h2, h3, h4⟩ : r = .wouldBlock ∧ u' = u1 ∧ buf' = buf ∧ br' = br := by
        cases h; exact ⟨rfl, rfl, rfl, rfl⟩
      subst h1; subst h3; subst h4
      refine ⟨Nat.le_refl _, rfl, ?_, fun _ => hbr⟩
      intro hcon; cases hcon
    | err e =>
      obtain ⟨h1, h2, h3, h4⟩ : r = .err e ∧ u' = u1 ∧ buf' = buf ∧ br' = br := by
        cases h; exact ⟨rfl, rfl, rfl, rfl⟩
      subst h1; subst h3; subst h4
      refine ⟨Nat.le_refl _, rfl, ?_, fun _ => hbr⟩
      intro hcon; cases hcon

/-- On the scripted transport, the ReadMultiple loop appends the bytes it
stores to the delivered log: the stored prefix grows by exactly the newly
delivered bytes, in order, and write-related fields stay untouched. -/
lemma readMultiple_pollGo_mock {ε : Type} (read_len : Nat) (fuel : Nat) :
    ∀ (u : SerialMock ε) (buf : List Nat) (br : Nat) (r : NbRes ε Unit)
      (u' : SerialMock ε) (buf' : List Nat) (br' : Nat),
    ReadMultiple.pollGo (mockOps ε) read_len fuel u buf br = some (r, u', buf', br') →
    ∃ d, u'.readDelivered = u.readDelivered ++ d ∧
      buf'.take br' = buf.take br ++ d ∧
      u'.writeBuf = u.writeBuf ∧ u'.writeReturns = u.writeReturns ∧
      u'.flushReturns = u.flushReturns ∧ br ≤ br' := by
  induction fuel with
  | zero => intro u buf br r u' buf' br' h; simp [ReadMultiple.pollGo] at h
  | succ fuel ih =>
    intro u buf br r u' buf' br' h
    rw [ReadMultiple.pollGo] at h
    rcases hrr : u.readReturns with _ | ⟨rres, rrest⟩
    · rw [show (mockOps ε).read u = (.wouldBlock, u) by
          simp [mockOps, SerialMock.readOp, hrr]] at h
      obtain ⟨h1, h2, h3, h4⟩ : r = .wouldBlock ∧ u' = u ∧ buf' = buf ∧ br' = br := by
        cases h; exact ⟨rfl, rfl, rfl, rfl⟩
      subst h2; subst h3; subst h4
      exact ⟨[], by simp, by simp, rfl, rfl, rfl, Nat.le_refl _⟩
    · cases rres with
      | ok c =>
        rw [show (mockOps ε).read u =
            (.ok c, { u with readReturns := rrest,
                             readDelivered := u.readDelivered ++ [c] }) by
            simp [mockOps, SerialMock.readOp, hrr]] at h
        simp only at h
        by_cases hlt : br < buf.length
        · rw [if_pos hlt] at h
          have htake : (buf.set br c).take (br + 1) = buf.take br ++ [c] :=
            take_set_succ buf br c hlt
          by_cases hge : br + 1 ≥ read_len
          · rw [if_pos hge] at h
            obtain ⟨h1, h2, h3, h4⟩ : r = .ok () ∧
                u' = { u with readReturns := rrest,
                              readDelivered := u.readDelivered ++ [c] } ∧
                buf' = buf.set br c ∧ br' = br + 1 := by
              cases h; exact ⟨rfl, rfl, rfl, rfl⟩
            subst h2; subst h3; subst h4
            exact ⟨[c], by simp, htake, rfl, rfl, rfl, by omega⟩
          · rw [if_neg hge] at h
            obtain ⟨d, hd1, hd2, hd3, hd4, hd5, hd6⟩ := ih
              { u with readReturns := rrest, readDelivered := u.readDelivered ++ [c] }
              (buf.set br c) (br + 1) r u' buf' br' h
            refine ⟨c :: d, ?_, ?_, hd3, hd4, hd5, by omega⟩
            · rw [hd1]; simp
            · rw [hd2, htake]; simp
        · rw [if_neg hlt] at h; cases h
      | wouldBlock =>
        rw [show (mockOps ε).read u = (.wouldBlock, { u with readReturns := rrest }) by
            simp [mockOps, SerialMock.readOp, hrr]] at h
        obtain ⟨h1, h2, h3, h4⟩ : r = .wouldBlock ∧ u' = { u with readReturns := rrest } ∧
            buf' = buf ∧ br' = br := by
          cases h; exact ⟨rfl, rfl, rfl, rfl⟩
        subst h2; subst h3; subst h4
        exact ⟨[], by simp, by simp, rfl, rfl, rfl, Nat.le_refl _⟩
      | err e =>
        rw [show (mockOps ε).read u = (.err e, { u with readReturns := rrest }) by
            simp [mockOps, SerialMock.readOp, hrr]] at h
        obtain ⟨h1, h2, h3, h4⟩ : r = .err e ∧ u' = { u with readReturns := rrest } ∧
            buf' = buf ∧ br' = br := by
          cases h; exact ⟨rfl, rfl, rfl, rfl⟩
        subst h2; subst h3; subst h4
        exact ⟨[], by simp, by simp, rfl, rfl, rfl, Nat.le_refl _⟩

/-- Repeatedly poll a WriteAll future, continuing on WouldBlock (the retry
loop of a caller, as in nb::block), stopping at Ok or a fatal error. -/
def pollRepeatW (iface : UartOps υ ε) : Nat → WriteAll υ → Option (NbRes ε Unit × WriteAll υ)
  | 0, w => some (.wouldBlock, w)
  | n + 1, w =>
    match WriteAll.poll iface w with
    | none => none
    | some (.wouldBlock, w') => pollRepeatW iface n w'
    | some (.ok v, w') => some (.ok v, w')
    | some (.err e, w') => some (.err e, w')

/-- Repeatedly poll a ReadMultiple future, continuing on WouldBlock,
stopping at Ok or a fatal error. -/
def pollRepeatR (iface : UartOps υ ε) : Nat → ReadMultiple υ → Option (NbRes ε Unit × ReadMultiple υ)
  | 0, w => some (.wouldBlock, w)
  | n + 1, w =>
    match ReadMultiple.poll iface w with
    | none => none
    | some (.wouldBlock, w') => pollRepeatR iface n w'
    | some (.ok v, w') => some (.ok v, w')
    | some (.err e, w') => some (.err e, w')

/-- Single WriteAll poll on the scripted transport preserves the invariant
that the write log equals the prefix of the buffer before the cursor. -/
lemma writeAll_poll_mock {ε : Type} (w : WriteAll (SerialMock ε)) (r : NbRes ε Unit)
    (w' : WriteAll (SerialMock ε))
    (hW : w.uart.writeBuf = w.buf.take w.bytes_written)
    (h : WriteAll.poll (mockOps ε) w = some (r, w')) :
    w'.buf = w.buf ∧ w'.uart.writeBuf = w.buf.take w'.bytes_written ∧
      (r = .ok () → w'.bytes_written = w.buf.length) := by
  rw [WriteAll.poll] at h
  rcases hgo : WriteAll.pollGo (mockOps ε) w.buf (w.buf.length - w.bytes_written + 1)
      w.uart w.bytes_written with _ | ⟨r0, u0, bw0⟩
  · rw [hgo] at h; cases h
  · rw [hgo] at h
    obtain ⟨h1, h2⟩ : r = r0 ∧ w' = ⟨u0, w.buf, bw0⟩ := by cases h; exact ⟨rfl, rfl⟩
    subst h1; subst h2
    have hmock := writeAll_pollGo_mock w.buf (w.buf.length - w.bytes_written + 1)
      w.uart w.bytes_written [] r u0 bw0 (by simpa using hW) hgo
    have hcur := writeAll_pollGo_cursor (mockOps ε) w.buf
      (w.buf.length - w.bytes_written + 1) w.uart w.bytes_written r u0 bw0 hgo
    exact ⟨rfl, by simpa using hmock.1, hcur.2.2.1⟩

/-- The write-side retry loop on the scripted transport maintains the
write-log invariant and, on completion, has written the whole buffer. -/
lemma pollRepeatW_mock {ε : Type} (buf : List Nat) (n : Nat) :
    ∀ (w : WriteAll (SerialMock ε)) (r : NbRes ε Unit) (w' : WriteAll (SerialMock ε)),
    w.buf = buf → w.uart.writeBuf = buf.take w.bytes_written →
    pollRepeatW (mockOps ε) n w = some (r, w') →
    w'.buf = buf ∧ w'.uart.writeBuf = buf.take w'.bytes_written ∧
      (r = .ok () → w'.bytes_written = buf.length) := by
  induction n with
  | zero =>
    intro w r w' hbuf hW h
    obtain ⟨h1, h2⟩ : r = .wouldBlock ∧ w' = w := by cases h; exact ⟨rfl, rfl⟩
    subst h1; subst h2
    exact ⟨hbuf, hW, fun hcon => by cases hcon⟩
  | succ n ih =>
    intro w r w' hbuf hW h
    rw [pollRepeatW] at h
    rcases hp : WriteAll.poll (mockOps ε) w with _ | ⟨r1, w1⟩
    · rw [hp] at h; cases h
    · rw [hp] at h
      have hstep := writeAll_poll_mock w r1 w1 (by rw [hbuf]; exact hW) hp
      rw [hbuf] at hstep
      cases r1 with
      | ok v =>
        obtain ⟨h1, h2⟩ : r = .ok v ∧ w' = w1 := by cases h; exact ⟨rfl, rfl⟩
        subst h1; subst h2
        exact ⟨hstep.1, hstep.2.1, fun _ => hstep.2.2 rfl⟩
      | wouldBlock =>
        exact ih w1 r w' hstep.1 hstep.2.1 h
      | err e =>
        obtain ⟨h1, h2⟩ : r = .err e ∧ w' = w1 := by cases h; exact ⟨rfl, rfl⟩
        subst h1; subst h2
        exact ⟨hstep.1, hstep.2.1, fun hcon => by cases hcon⟩

/-- Single ReadMultiple poll on the scripted transport preserves the
invariant that the stored prefix equals the delivered log. -/
lemma readMultiple_poll_mock {ε : Type} (rm : ReadMultiple (SerialMock ε)) (r : NbRes ε Unit)
    (r' : ReadMultiple (SerialMock ε))
    (hinv : rm.buf.take rm.bytes_read = rm.uart.readDelivered)
    (hbr : rm.bytes_read < rm.read_len)
    (h : ReadMultiple.poll (mockOps ε) rm = some (r, r')) :
    r'.read_len = rm.read_len ∧ r'.buf.take r'.bytes_read = r'.uart.readDelivered ∧
      r'.buf.length = rm.buf.length ∧
      (r = .ok () → r'.bytes_read = rm.read_len) ∧
      (r ≠ .ok () → r'.bytes_read < rm.read_len) := by
  rw [ReadMultiple.poll] at h
  rcases hgo : ReadMultiple.pollGo (mockOps ε) rm.read_len (rm.read_len - rm.bytes_read + 1)
      rm.uart rm.buf rm.bytes_read with _ | ⟨r0, u0, buf0, br0⟩
  · rw [hgo] at h; cases h
  · rw [hgo] at h
    obtain ⟨h1, h2⟩ : r = r0 ∧ r' = ⟨u0, buf0, br0, rm.read_len⟩ := by
      cases h; exact ⟨rfl, rfl⟩
    subst h1; subst h2
    obtain ⟨d, hd1, hd2, hd3, hd4, hd5, hd6⟩ := readMultiple_pollGo_mock rm.read_len
      (rm.read_len - rm.bytes_read + 1) rm.uart rm.buf rm.bytes_read r u0 buf0 br0 hgo
    have hcur := readMultiple_pollGo_cursor (mockOps ε) rm.read_len
      (rm.read_len - rm.bytes_read + 1) rm.uart rm.buf rm.bytes_read r u0 buf0 br0 hbr hgo
    refine ⟨rfl, ?_, hcur.2.1, hcur.2.2.1, hcur.2.2.2⟩
    rw [hd2, hd1, hinv]

/-- The read-side retry loop on the scripted transport maintains the
stored-equals-delivered invariant and, on completion, has read exactly
read_len bytes. -/
lemma pollRepeatR_mock {ε : Type} (read_len : Nat) (n : Nat) :
    ∀ (rm : ReadMultiple (SerialMock ε)) (r : NbRes ε Unit) (r' : ReadMultiple (SerialMock ε)),
    rm.read_len = read_len →
    rm.buf.take rm.bytes_read = rm.uart.readDelivered →
    rm.bytes_read < read_len →
    pollRepeatR (mockOps ε) n rm = some (r, r') →
    r'.read_len = read_len ∧ r'.buf.take r'.bytes_read = r'.uart.readDelivered ∧
      r'.buf.length = rm.buf.length ∧ (r = .ok () → r'.bytes_read = read_len) := by
  induction n with
  | zero =>
    intro rm r r' hlen hinv hbr h
    obtain ⟨h1, h2⟩ : r = .wouldBlock ∧ r' = rm := by cases h; exact ⟨rfl, rfl⟩
    subst h1; subst h2
    exact ⟨hlen, hinv, rfl, fun hcon => by cases hcon⟩
  | succ n ih =>
    intro rm r r' hlen hinv hbr h
    rw [pollRepeatR] at h
    rcases hp : ReadMultiple.poll (mockOps ε) rm with _ | ⟨r1, rm1⟩
    · rw [hp] at h; cases h
    · rw [hp] at h
      have hstep := readMultiple_poll_mock rm r1 rm1 hinv (by omega) hp
      rw [hlen] at hstep
      cases r1 with
      | ok v =>
        obtain ⟨h1, h2⟩ : r = .ok v ∧ r' = rm1 := by cases h; exact ⟨rfl, rfl⟩
        subst h1; subst h2
        exact ⟨hstep.1, hstep.2.1, hstep.2.2.1, fun _ => hstep.2.2.2.1 rfl⟩
      | wouldBlock =>
        have := ih rm1 r r' hstep.1 hstep.2.1
          (hstep.2.2.2.2 (fun hcon => by cases hcon)) h
        exact ⟨this.1, this.2.1, by rw [this.2.2.1, hstep.2.2.1], this.2.2.2⟩
      | err e =>
        obtain ⟨h1, h2⟩ : r = .err e ∧ r' = rm1 := by cases h; exact ⟨rfl, rfl⟩
        subst h1; subst h2
        exact ⟨hstep.1, hstep.2.1, hstep.2.2.1, fun hcon => by cases hcon⟩

/-- C5: on the scripted transport, for every write script and buffer,
repeated polling of WriteAll maintains the write log equal to the prefix of
the buffer before the saved cursor (resuming, never restarting), and on
completion has written every byte of the buffer exactly once, in order;
symmetrically, repeated polling of ReadMultiple keeps the stored prefix
equal to the bytes delivered by the transport, and on completion has stored
exactly the first read_len delivered bytes, in order, each one exactly once. -/
theorem c5_every_byte_exactly_once :
    (∀ (ε : Type) (writes : List (NbRes ε Unit)) (buf : List Nat) (n : Nat)
      (r : NbRes ε Unit) (w' : WriteAll (SerialMock ε)),
      pollRepeatW (mockOps ε) n ⟨⟨[], writes, [], [], []⟩, buf, 0⟩ = some (r, w') →
      w'.buf = buf ∧ w'.uart.writeBuf = buf.take w'.bytes_written ∧
        (r = .ok () → w'.uart.writeBuf = buf ∧ w'.bytes_written = buf.length)) ∧
    (∀ (ε : Type) (reads : List (NbRes ε Nat)) (rbuf : List Nat) (read_len n : Nat)
      (r : NbRes ε Unit) (r' : ReadMultiple (SerialMock ε)),
      0 < read_len → read_len ≤ rbuf.length →
      pollRepeatR (mockOps ε) n ⟨⟨reads, [], [], [], []⟩, rbuf, 0, read_len⟩ = some (r, r') →
      r'.buf.take r'.bytes_read = r'.uart.readDelivered ∧
        (r = .ok () → r'.bytes_read = read_len ∧
          r'.buf.take read_len = r'.uart.readDelivered ∧
          r'.uart.readDelivered.length = read_len)) := by
  constructor
  · intro ε writes buf n r w' h
    have := pollRepeatW_mock buf n ⟨⟨[], writes, [], [], []⟩, buf, 0⟩ r w' rfl (by simp) h
    refine ⟨this.1, this.2.1, fun hok => ⟨?_, this.2.2 hok⟩⟩
    rw [this.2.1, this.2.2 hok]
    exact List.take_length buf
  · intro ε reads rbuf read_len n r r' hpos hlen h
    have := pollRepeatR_mock read_len n ⟨⟨reads, [], [], [], []⟩, rbuf, 0, read_len⟩ r r'
      rfl (by simp) (by simpa using hpos) h
    refine ⟨this.2.1, fun hok => ?_⟩
    have hbr : r'.bytes_read = read_len := this.2.2.2 hok
    have hblen : r'.buf.length = rbuf.length := this.2.2.1
    refine ⟨hbr, by rw [← hbr]; exact this.2.1, ?_⟩
    rw [← this.2.1, hbr]
    simp [hblen]
    omega

/-- Witness for c5_every_byte_exactly_once: a concrete interleaving with
suspensions completes having written and read every byte exactly once. -/
theorem c5_every_byte_exactly_once_witness :
    (pollRepeatW (mockOps Nat) 3
        ⟨⟨[], [.ok (), .wouldBlock, .ok (), .ok ()], [], [], []⟩, [5, 6, 7], 0⟩).map
      (fun p => (p.1, p.2.uart.writeBuf)) = some (.ok (), [5, 6, 7]) ∧
    (0 : Nat) < 2 ∧ (2 : Nat) ≤ ([0, 0] : List Nat).length ∧
    (pollRepeatR (mockOps Nat) 3
        ⟨⟨[.ok 9, .wouldBlock, .ok 8], [], [], [], []⟩, [0, 0], 0, 2⟩).map
      (fun p => (p.1, p.2.buf, p.2.uart.readDelivered)) =
      some (.ok (), [9, 8], [9, 8]) := by
  refine ⟨rfl, by decide, by decide, rfl⟩

/-- The checksum fold computes two's-complement negation of the byte sum:
folding wrapping subtraction from any 8-bit accumulator equals the
accumulator minus the sum, modulo 256. -/
lemma checksum_foldl (b : List Nat) :
    ∀ (acc : Nat), acc < 256 → (∀ x ∈ b, x < 256) →
    ((List.foldl (fun acc x => (acc + (256 - x % 256)) % 256) acc b : Nat) : Int) =
      ((acc : Int) - (b.sum : Int)) % 256 := by
  induction b with
  | nil =>
    intro acc hacc hb
    simp only [List.foldl_nil, List.sum_nil, Nat.cast_zero, sub_zero]
    omega
  | cons x xs ih =>
    intro acc hacc hb
    have hx : x < 256 := hb x (List.mem_cons_self x xs)
    simp only [List.foldl_cons, List.sum_cons]
    rw [ih ((acc + (256 - x % 256)) % 256) (Nat.mod_lt _ (by norm_num))
      (fun y hy => hb y (List.mem_cons_of_mem x hy))]
    rw [Nat.mod_eq_of_lt hx]
    have hcast : (((acc + (256 - x)) % 256 : Nat) : Int) =
        ((acc : Int) + (256 - (x : Int))) % 256 := by
      push_cast [Nat.le_of_lt hx]
      ring_nf
    rw [hcast]
    push_cast
    omega

/-- C8: for every byte sequence, checksum equals (0 - sum) mod 256 computed
with 8-bit wrap-around; in particular the checksum of the read-CO2 command
body is 0x79; and every frame constructed from a command stores the
checksum of its bytes 1..7 at byte 8. -/
theorem c8_checksum :
    (∀ b : List Nat, (∀ x ∈ b, x < 256) →
      ((checksum b : Nat) : Int) = (0 - (b.sum : Int)) % 256) ∧
    checksum [0x01, 0x86, 0x00, 0x00, 0x00, 0x00, 0x00] = 0x79 ∧
    (∀ command : Command, (Frame.fromCommand command).bytes.getD 8 0 =
      checksum (((Frame.fromCommand command).bytes.drop 1).take 7)) := by
  refine ⟨fun b hb => ?_, by decide, fun command => ?_⟩
  · rw [checksum, checksum_foldl b 0 (by norm_num) hb]
    norm_num
  · cases command with
    | readCo2AndTemperature => rfl
    | readCo2 => rfl
    | getFirmwareVersion => rfl
    | setSelfCalibrate enabled => cases enabled <;> rfl

/-- Witness for c8_checksum: the general formula applied to the concrete
read-CO2 command body. -/
theorem c8_checksum_witness :
    (∀ x ∈ [0x01, 0x86, 0x00, 0x00, 0x00, 0x00, 0x00], x < 256) ∧
    ((checksum [0x01, 0x86, 0x00, 0x00, 0x00, 0x00, 0x00] : Nat) : Int) =
      (0 - (([0x01, 0x86, 0x00, 0x00, 0x00, 0x00, 0x00] : List Nat).sum : Int)) % 256 :=
  ⟨by decide, c8_checksum.1 [0x01, 0x86, 0x00, 0x00, 0x00, 0x00, 0x00] (by decide)⟩

/-- Phase number of a WriteAndReadResponse sub-state, in execution order. -/
def WARState.phase : WARState υ → Nat
  | .write _ _ _ => 0
  | .flush _ _ _ => 1
  | .read _ => 2
  | .completed _ _ => 3

/-- A successful advance moves the sub-state exactly one phase forward
(Completed is absorbing); a pending advance keeps the phase, and the
reported result is never Ok. -/
lemma warAdvance_order (iface : UartOps υ ε) (s : WARState υ) :
    (∀ ns, WARState.advance iface s = some (.inl ns) → ns.phase = min (s.phase + 1) 3) ∧
    (∀ ns e, WARState.advance iface s = some (.inr (ns, e)) →
      ns.phase = s.phase ∧ e ≠ .ok ()) := by
  cases s with
  | write f rb rl =>
    constructor
    · intro ns h
      simp only [WARState.advance] at h
      rcases hp : WriteAll.poll iface f with _ | ⟨r0, f'⟩ <;> rw [hp] at h
      · cases h
      · cases r0 with
        | ok v => cases h; rfl
        | wouldBlock => cases h
        | err e => cases h
    · intro ns e h
      simp only [WARState.advance] at h
      rcases hp : WriteAll.poll iface f with _ | ⟨r0, f'⟩ <;> rw [hp] at h
      · cases h
      · cases r0 with
        | ok v => cases h
        | wouldBlock => cases h; exact ⟨rfl, fun hcon => by cases hcon⟩
        | err e0 => cases h; exact ⟨rfl, fun hcon => by cases hcon⟩
  | flush u rb rl =>
    constructor
    · intro ns h
      simp only [WARState.advance] at h
      rcases hp : iface.flush u with ⟨r0, u'⟩
      rw [hp] at h
      cases r0 with
      | ok v => cases h; rfl
      | wouldBlock => cases h
      | err e => cases h
    · intro ns e h
      simp only [WARState.advance] at h
      rcases hp : iface.flush u with ⟨r0, u'⟩
      rw [hp] at h
      cases r0 with
      | ok v => cases h
      | wouldBlock => cases h; exact ⟨rfl, fun hcon => by cases hcon⟩
      | err e0 => cases h; exact ⟨rfl, fun hcon => by cases hcon⟩
  | read f =>
    constructor
    · intro ns h
      simp only [WARState.advance] at h
      rcases hp : ReadMultiple.poll iface f with _ | ⟨r0, f'⟩ <;> rw [hp] at h
      · cases h
      · cases r0 with
        | ok v => cases h; rfl
        | wouldBlock => cases h
        | err e => cases h
    · intro ns e h
      simp only [WARState.advance] at h
      rcases hp : ReadMultiple.poll iface f with _ | ⟨r0, f'⟩ <;> rw [hp] at h
      · cases h
      · cases r0 with
        | ok v => cases h
        | wouldBlock => cases h; exact ⟨rfl, fun hcon => by cases hcon⟩
        | err e0 => cases h; exact ⟨rfl, fun hcon => by cases hcon⟩
  | completed u rb =>
    constructor
    · intro ns h
      simp only [WARState.advance] at h
      cases h; rfl
    · intro ns e h
      simp only [WARState.advance] at h
      cases h

/-- The WriteAll loop on the scripted transport never touches the
read-related or flush-related fields, regardless of the write log. -/
lemma writeAll_pollGo_mock_fields {ε : Type} (buf : List Nat) (fuel : Nat) :
    ∀ (u : SerialMock ε) (bw : Nat) (r : NbRes ε Unit) (u' : SerialMock ε) (bw' : Nat),
    WriteAll.pollGo (mockOps ε) buf fuel u bw = some (r, u', bw') →
    u'.readReturns = u.readReturns ∧ u'.readDelivered = u.readDelivered ∧
      u'.flushReturns = u.flushReturns := by
  induction fuel with
  | zero => intro u bw r u' bw' h; simp [WriteAll.pollGo] at h
  | succ fuel ih =>
    intro u bw r u' bw' h
    rw [WriteAll.pollGo] at h
    cases hidx : buf[bw]? with
    | none => rw [hidx] at h; cases h
    | some c =>
      rw [hidx] at h
      simp only at h
      rcases hwr : u.writeReturns with _ | ⟨wres, wrest⟩
      · rw [show (mockOps ε).write c u = (.wouldBlock, u) by
            simp [mockOps, SerialMock.writeOp, hwr]] at h
        cases h; exact ⟨rfl, rfl, rfl⟩
      · cases wres with
        | ok v =>
          rw [show (mockOps ε).write c u =
              (.ok (), { u with writeReturns := wrest, writeBuf := u.writeBuf ++ [c] }) by
              simp [mockOps, SerialMock.writeOp, hwr]] at h
          simp only at h
          by_cases hge : bw + 1 ≥ buf.length
          · rw [if_pos hge] at h; cases h; exact ⟨rfl, rfl, rfl⟩
          · rw [if_neg hge] at h
            exact ih { u with writeReturns := wrest, writeBuf := u.writeBuf ++ [c] }
              (bw + 1) r u' bw' h
        | wouldBlock =>
          rw [show (mockOps ε).write c u = (.wouldBlock, { u with writeReturns := wrest }) by
              simp [mockOps, SerialMock.writeOp, hwr]] at h
          cases h; exact ⟨rfl, rfl, rfl⟩
        | err e =>
          rw [show (mockOps ε).write c u = (.err e, { u with writeReturns := wrest }) by
              simp [mockOps, SerialMock.writeOp, hwr]] at h
          cases h; exact ⟨rfl, rfl, rfl⟩

/-- While in the Write or Flush sub-state, advancing on the scripted
transport issues no read: the read script and the delivered log of the
transport held by the resulting sub-state are unchanged. -/
lemma warAdvance_mock_no_read {ε : Type} (s : WARState (SerialMock ε))
    (hph : s.phase ≤ 1) :
    (∀ ns, WARState.advance (mockOps ε) s = some (.inl ns) →
      ns.cancel.1.readReturns = s.cancel.1.readReturns ∧
      ns.cancel.1.readDelivered = s.cancel.1.readDelivered) ∧
    (∀ ns e, WARState.advance (mockOps ε) s = some (.inr (ns, e)) →
      ns.cancel.1.readReturns = s.cancel.1.readReturns ∧
      ns.cancel.1.readDelivered = s.cancel.1.readDelivered) := by
  cases s with
  | write f rb rl =>
    have hfields : ∀ (r0 : NbRes ε Unit) (f' : WriteAll (SerialMock ε)),
        WriteAll.poll (mockOps ε) f = some (r0, f') →
        f'.uart.readReturns = f.uart.readReturns ∧
        f'.uart.readDelivered = f.uart.readDelivered := by
      intro r0 f' hp
      rw [WriteAll.poll] at hp
      rcases hgo : WriteAll.pollGo (mockOps ε) f.buf (f.buf.length - f.bytes_written + 1)
          f.uart f.bytes_written with _ | ⟨r1, u1, bw1⟩
      · rw [hgo] at hp; cases hp
      · rw [hgo] at hp
        obtain ⟨h1, h2⟩ : r0 = r1 ∧ f' = ⟨u1, f.buf, bw1⟩ := by cases hp; exact ⟨rfl, rfl⟩
        subst h2
        have := writeAll_pollGo_mock_fields f.buf (f.buf.length - f.bytes_written + 1)
          f.uart f.bytes_written r1 u1 bw1 hgo
        exact ⟨this.1, this.2.1⟩
    constructor
    · intro ns h
      simp only [WARState.advance] at h
      rcases hp : WriteAll.poll (mockOps ε) f with _ | ⟨r0, f'⟩ <;> rw [hp] at h
      · cases h
      · cases r0 with
        | ok v => cases h; exact hfields _ _ hp
        | wouldBlock => cases h
        | err e => cases h
    · intro ns e h
      simp only [WARState.advance] at h
      rcases hp : WriteAll.poll (mockOps ε) f with _ | ⟨r0, f'⟩ <;> rw [hp] at h
      · cases h
      · cases r0 with
        | ok v => cases h
        | wouldBlock => cases h; exact hfields _ _ hp
        | err e0 => cases h; exact hfields _ _ hp
  | flush u rb rl =>
    have hflush : ∀ (r0 : NbRes ε Unit) (u' : SerialMock ε),
        (mockOps ε).flush u = (r0, u') →
        u'.readReturns = u.readReturns ∧ u'.readDelivered = u.readDelivered := by
      intro r0 u' hp
      rcases hfr : u.flushReturns with _ | ⟨fres, frest⟩ <;>
        simp [mockOps, SerialMock.flushOp, hfr] at hp
      · rw [← hp.2]; exact ⟨rfl, rfl⟩
      · rw [← hp.2]; exact ⟨rfl, rfl⟩
    constructor
    · intro ns h
      simp only [WARState.advance] at h
      rcases hp : (mockOps ε).flush u with ⟨r0, u'⟩
      rw [hp] at h
      cases r0 with
      | ok v => cases h; exact hflush _ _ hp
      | wouldBlock => cases h
      | err e => cases h
    · intro ns e h
      simp only [WARState.advance] at h
      rcases hp : (mockOps ε).flush u with ⟨r0, u'⟩
      rw [hp] at h
      cases r0 with
      | ok v => cases h
      | wouldBlock => cases h; exact hflush _ _ hp
      | err e0 => cases h; exact hflush _ _ hp
  | read f => simp [WARState.phase] at hph
  | completed u rb => simp [WARState.phase] at hph

/-- The Write sub-state advances to Flush only after the WriteAll future
has written every remaining byte of the command buffer to the transport. -/
lemma warAdvance_write_full {ε : Type} (f : WriteAll (SerialMock ε)) (rb : List Nat)
    (rl : Nat) (W0 : List Nat) (ns : WARState (SerialMock ε))
    (hW : f.uart.writeBuf = W0 ++ f.buf.take f.bytes_written)
    (h : WARState.advance (mockOps ε) (.write f rb rl) = some (.inl ns)) :
    ∃ u', ns = .flush u' rb rl ∧ u'.writeBuf = W0 ++ f.buf := by
  simp only [WARState.advance] at h
  rcases hp : WriteAll.poll (mockOps ε) f with _ | ⟨r0, f'⟩ <;> rw [hp] at h
  · cases h
  · cases r0 with
    | ok v =>
      cases h
      rw [WriteAll.poll] at hp
      rcases hgo : WriteAll.pollGo (mockOps ε) f.buf (f.buf.length - f.bytes_written + 1)
          f.uart f.bytes_written with _ | ⟨r1, u1, bw1⟩
      · rw [hgo] at hp; cases hp
      · rw [hgo] at hp
        obtain ⟨h1, h2⟩ : NbRes.ok v = r1 ∧ f' = ⟨u1, f.buf, bw1⟩ := by
          cases hp; exact ⟨rfl, rfl⟩
        subst h2
        have hmock := writeAll_pollGo_mock f.buf (f.buf.length - f.bytes_written + 1)
          f.uart f.bytes_written W0 r1 u1 bw1 hW hgo
        have hcur := writeAll_pollGo_cursor (mockOps ε) f.buf
          (f.buf.length - f.bytes_written + 1) f.uart f.bytes_written r1 u1 bw1 hgo
        have hbw : bw1 = f.buf.length := hcur.2.2.1 (by rw [← h1])
        refine ⟨u1, rfl, ?_⟩
        rw [hmock.1, hbw, List.take_length]
    | wouldBlock => cases h
    | err e => cases h

/-- A fatal error reported by an advance is surfaced unchanged by the very
same poll, leaving the sub-state in the phase that failed. -/
lemma warPoll_err_immediate (iface : UartOps υ ε) (s ns : WARState υ) (e : ε)
    (h : WARState.advance iface s = some (.inr (ns, .err e))) :
    WARState.poll iface s = some (.err e, ns) := by
  have horder := (warAdvance_order iface s).2 ns (.err e) h
  have hsph : s.phase ≤ 2 := by
    cases s with
    | completed u rb => simp only [WARState.advance] at h; cases h
    | write f rb rl => simp [WARState.phase]
    | flush u rb rl => simp [WARState.phase]
    | read f => simp [WARState.phase]
  have hns : ns.isCompleted = false := by
    cases ns with
    | completed u rb => rw [← horder.1] at hsph; simp [WARState.phase] at hsph
    | write f rb rl => rfl
    | flush u rb rl => rfl
    | read f => rfl
  rw [WARState.poll, WARState.pollGo, h]
  simp [hns]

/-- C6: in WriteAndReadResponse, the sub-state advances only in the order
Write, Flush, Read, Completed (one phase per successful advance, with
Completed absorbing, and no phase change on a pending sub-step); while in
the Write or Flush phases no byte is read from the transport; the Flush
phase is entered only once every byte of the write buffer has been
written; and a fatal transport error in any sub-state is surfaced
immediately from that poll. -/
theorem c6_write_flush_read_order :
    (∀ (υ ε : Type) (iface : UartOps υ ε) (s : WARState υ),
      (∀ ns, WARState.advance iface s = some (.inl ns) →
        ns.phase = min (s.phase + 1) 3) ∧
      (∀ ns e, WARState.advance iface s = some (.inr (ns, e)) →
        ns.phase = s.phase ∧ e ≠ .ok ())) ∧
    (∀ (ε : Type) (s : WARState (SerialMock ε)), s.phase ≤ 1 →
      (∀ ns, WARState.advance (mockOps ε) s = some (.inl ns) →
        ns.cancel.1.readReturns = s.cancel.1.readReturns ∧
        ns.cancel.1.readDelivered = s.cancel.1.readDelivered) ∧
      (∀ ns e, WARState.advance (mockOps ε) s = some (.inr (ns, e)) →
        ns.cancel.1.readReturns = s.cancel.1.readReturns ∧
        ns.cancel.1.readDelivered = s.cancel.1.readDelivered)) ∧
    (∀ (ε : Type) (f : WriteAll (SerialMock ε)) (rb : List Nat) (rl : Nat)
      (W0 : List Nat) (ns : WARState (SerialMock ε)),
      f.uart.writeBuf = W0 ++ f.buf.take f.bytes_written →
      WARState.advance (mockOps ε) (.write f rb rl) = some (.inl ns) →
      ∃ u', ns = .flush u' rb rl ∧ u'.writeBuf = W0 ++ f.buf) ∧
    (∀ (υ ε : Type) (iface : UartOps υ ε) (s ns : WARState υ) (e : ε),
      WARState.advance iface s = some (.inr (ns, .err e)) →
      WARState.poll iface s = some (.err e, ns)) :=
  ⟨fun _ _ iface s => warAdvance_order iface s,
   fun _ s hph => warAdvance_mock_no_read s hph,
   fun _ f rb rl W0 ns hW h => warAdvance_write_full f rb rl W0 ns hW h,
   fun _ _ iface s ns e h => warPoll_err_immediate iface s ns e h⟩

/-- Witness for c6_write_flush_read_order: a concrete flush-phase fatal
error is surfaced by the poll that hits it. -/
theorem c6_write_flush_read_order_witness :
    WARState.advance (mockOps Nat)
        (.flush (⟨[], [], [.err 3], [], []⟩ : SerialMock Nat) [0, 0] 2) =
      some (.inr (.flush (⟨[], [], [], [], []⟩ : SerialMock Nat) [0, 0] 2, .err 3)) ∧
    WARState.poll (mockOps Nat)
        (.flush (⟨[], [], [.err 3], [], []⟩ : SerialMock Nat) [0, 0] 2) =
      some (.err 3, .flush (⟨[], [], [], [], []⟩ : SerialMock Nat) [0, 0] 2) :=
  ⟨rfl, c6_write_flush_read_order.2.2.2 (SerialMock Nat) Nat (mockOps Nat)
    (.flush (⟨[], [], [.err 3], [], []⟩ : SerialMock Nat) [0, 0] 2)
    (.flush (⟨[], [], [], [], []⟩ : SerialMock Nat) [0, 0] 2) 3 rfl⟩

/-
  Driver-level lemmas: kind preservation under polling, classification of
  error exits, and the uart-ownership invariant.
-/

/-- Constructor index of a driver state. -/
def MhZ19CState.kindIdx : MhZ19CState υ → Nat
  | .idle => 0
  | .readCo2AndTemperature _ => 1
  | .readCo2 _ => 2
  | .getFirmwareVersion _ => 3
  | .setSelfCalibrate _ => 4

/-- Constructor index of the driver state an operation runs in. -/
def Command.stateKind : Command → Nat
  | .readCo2AndTemperature => 1
  | .readCo2 => 2
  | .getFirmwareVersion => 3
  | .setSelfCalibrate _ => 4

/-- Protocol errors of the driver, as opposed to transport errors. -/
def Error.isProtocol : Error ε → Bool
  | .validateFrameError _ => true
  | .notAResponse => true
  | .opCodeMismatch _ _ => true
  | .uartError _ => false
  | .notSupportedByFirmware _ => false

/-- Polling the driver state keeps its constructor, and every fatal error
it reports is a tagged transport error. -/
lemma pollState_kind (iface : UartOps υ ε) (s : MhZ19CState υ) (r : NbRes (Error ε) Unit)
    (s' : MhZ19CState υ) (h : MhZ19C.pollState iface s = some (r, s')) :
    s'.kindIdx = s.kindIdx ∧ (∀ e, r = .err e → ∃ te, e = .uartError te) := by
  cases s with
  | idle =>
    simp only [MhZ19C.pollState] at h
    cases h
    exact ⟨rfl, fun e he => by cases he⟩
  | readCo2AndTemperature f =>
    simp only [MhZ19C.pollState] at h
    rcases hp : WARState.poll iface f with _ | ⟨r0, f'⟩ <;> rw [hp] at h
    · cases h
    · cases h
      refine ⟨rfl, fun e he => ?_⟩
      cases r0 with
      | ok v => cases he
      | wouldBlock => cases he
      | err te => cases he; exact ⟨te, rfl⟩
  | readCo2 f =>
    simp only [MhZ19C.pollState] at h
    rcases hp : WARState.poll iface f with _ | ⟨r0, f'⟩ <;> rw [hp] at h
    · cases h
    · cases h
      refine ⟨rfl, fun e he => ?_⟩
      cases r0 with
      | ok v => cases he
      | wouldBlock => cases he
      | err te => cases he; exact ⟨te, rfl⟩
  | getFirmwareVersion f =>
    simp only [MhZ19C.pollState] at h
    rcases hp : WARState.poll iface f with _ | ⟨r0, f'⟩ <;> rw [hp] at h
    · cases h
    · cases h
      refine ⟨rfl, fun e he => ?_⟩
      cases r0 with
      | ok v => cases he
      | wouldBlock => cases he
      | err te => cases he; exact ⟨te, rfl⟩
  | setSelfCalibrate f =>
    simp only [MhZ19C.pollState] at h
    rcases hp : WriteAll.poll iface f with _ | ⟨r0, f'⟩ <;> rw [hp] at h
    · cases h
    · cases h
      refine ⟨rfl, fun e he => ?_⟩
      cases r0 with
      | ok v => cases he
      | wouldBlock => cases he
      | err te => cases he; exact ⟨te, rfl⟩

/-- Every error produced by unpack_return_frame is a protocol error. -/
lemma unpack_protocol {ε : Type} (command : Command) (frame : Frame) (e : Error ε)
    (h : unpack_return_frame command frame = .error e) : e.isProtocol = true := by
  rw [unpack_return_frame] at h
  cases hval : frame.validate with
  | error e0 =>
    rw [hval] at h
    cases h
    rfl
  | ok v =>
    rw [hval] at h
    simp only at h
    by_cases hresp : frame.is_response
    · rw [if_neg (by simp [hresp])] at h
      by_cases hop : frame.op_code ≠ command.op_code
      · rw [if_pos hop] at h; cases h; rfl
      · rw [if_neg hop] at h; cases h
    · rw [if_pos (by simp [hresp])] at h
      cases h
      rfl

/-- A decode of a completed matching operation always returns to the caller
(never continues the loop), restores the future's transport to the slot,
and fails only with protocol errors. -/
lemma decodeFinish_spec (command : Command) (m3 : MhZ19C υ) (future : WARState υ)
    (mk : List Nat → OpResult) (r : NbRes (Error ε) OpResult) (m2 : MhZ19C υ)
    (h : MhZ19C.decodeFinish command m3 future mk = .inl (r, m2)) :
    m2.state = m3.state ∧ m2.uart = some future.cancel.1 ∧
      (∀ e, r = .err e → e.isProtocol = true) ∧ r ≠ .wouldBlock := by
  rw [MhZ19C.decodeFinish] at h
  cases hu : unpack_return_frame (ε := ε) command (Frame.new future.cancel.2) with
  | error e0 =>
    rw [hu] at h
    cases h
    refine ⟨rfl, rfl, ?_, ?_⟩
    · intro e he; cases he; exact unpack_protocol _ _ _ hu
    · intro hcon; cases hcon
  | ok data =>
    rw [hu] at h
    cases h
    refine ⟨rfl, rfl, ?_, ?_⟩
    · intro e he; cases he
    · intro hcon; cases hcon

/-- decodeFinish never asks the loop to continue. -/
lemma decodeFinish_ne_inr (command : Command) (m3 : MhZ19C υ) (future : WARState υ)
    (mk : List Nat → OpResult) (m2 : MhZ19C υ) :
    MhZ19C.decodeFinish (ε := ε) command m3 future mk ≠ .inr m2 := by
  intro h
  rw [MhZ19C.decodeFinish] at h
  cases hu : unpack_return_frame (ε := ε) command (Frame.new future.cancel.2) with
  | error e0 => rw [hu] at h; cases h
  | ok data => rw [hu] at h; cases h

/-- When stepFinish returns to the caller, the driver state is the taken
one (Idle), the uart slot is refilled, and any error is a protocol error. -/
lemma stepFinish_inl_spec (op : Command) (m3 : MhZ19C υ) (taken : MhZ19CState υ)
    (r : NbRes (Error ε) OpResult) (m2 : MhZ19C υ)
    (h : MhZ19C.stepFinish op m3 taken = .inl (r, m2)) :
    m2.state = m3.state ∧ (∃ u, m2.uart = some u) ∧
      (∀ e, r = .err e → e.isProtocol = true) ∧ r ≠ .wouldBlock := by
  cases op with
  | readCo2AndTemperature =>
    cases taken with
    | readCo2AndTemperature f =>
      have := decodeFinish_spec _ _ _ _ _ _ h
      exact ⟨this.1, ⟨_, this.2.1⟩, this.2.2.1, this.2.2.2⟩
    | idle => exact Sum.noConfusion h
    | readCo2 f => exact Sum.noConfusion h
    | getFirmwareVersion f => exact Sum.noConfusion h
    | setSelfCalibrate f => exact Sum.noConfusion h
  | readCo2 =>
    cases taken with
    | readCo2 f =>
      have := decodeFinish_spec _ _ _ _ _ _ h
      exact ⟨this.1, ⟨_, this.2.1⟩, this.2.2.1, this.2.2.2⟩
    | idle => exact Sum.noConfusion h
    | readCo2AndTemperature f => exact Sum.noConfusion h
    | getFirmwareVersion f => exact Sum.noConfusion h
    | setSelfCalibrate f => exact Sum.noConfusion h
  | getFirmwareVersion =>
    cases taken with
    | getFirmwareVersion f =>
      have := decodeFinish_spec _ _ _ _ _ _ h
      exact ⟨this.1, ⟨_, this.2.1⟩, this.2.2.1, this.2.2.2⟩
    | idle => exact Sum.noConfusion h
    | readCo2AndTemperature f => exact Sum.noConfusion h
    | readCo2 f => exact Sum.noConfusion h
    | setSelfCalibrate f => exact Sum.noConfusion h
  | setSelfCalibrate enabled =>
    cases taken with
    | setSelfCalibrate f =>
      cases h
      refine ⟨rfl, ⟨_, rfl⟩, ?_, ?_⟩
      · intro e he; cases he
      · intro hcon; cases hcon
    | idle => exact Sum.noConfusion h
    | readCo2AndTemperature f => exact Sum.noConfusion h
    | readCo2 f => exact Sum.noConfusion h
    | getFirmwareVersion f => exact Sum.noConfusion h

/-- When stepFinish continues the loop, the taken state was a busy state of
a different kind; the uart is recovered into the slot and the state field
is the one of the caller (Idle). -/
lemma stepFinish_inr_spec (op : Command) (m3 : MhZ19C υ) (taken : MhZ19CState υ)
    (m2 : MhZ19C υ) (hk : taken.kindIdx ≠ 0)
    (h : MhZ19C.stepFinish (ε := ε) op m3 taken = .inr m2) :
    m2.state = m3.state ∧ ∃ u, m2.uart = some u := by
  cases op with
  | readCo2AndTemperature =>
    cases taken with
    | idle => simp [MhZ19CState.kindIdx] at hk
    | readCo2AndTemperature f => exact absurd h (decodeFinish_ne_inr _ _ _ _ _)
    | readCo2 f => cases h; exact ⟨rfl, _, rfl⟩
    | getFirmwareVersion f => cases h; exact ⟨rfl, _, rfl⟩
    | setSelfCalibrate f => cases h; exact ⟨rfl, _, rfl⟩
  | readCo2 =>
    cases taken with
    | idle => simp [MhZ19CState.kindIdx] at hk
    | readCo2 f => exact absurd h (decodeFinish_ne_inr _ _ _ _ _)
    | readCo2AndTemperature f => cases h; exact ⟨rfl, _, rfl⟩
    | getFirmwareVersion f => cases h; exact ⟨rfl, _, rfl⟩
    | setSelfCalibrate f => cases h; exact ⟨rfl, _, rfl⟩
  | getFirmwareVersion =>
    cases taken with
    | idle => simp [MhZ19CState.kindIdx] at hk
    | getFirmwareVersion f => exact absurd h (decodeFinish_ne_inr _ _ _ _ _)
    | readCo2AndTemperature f => cases h; exact ⟨rfl, _, rfl⟩
    | readCo2 f => cases h; exact ⟨rfl, _, rfl⟩
    | setSelfCalibrate f => cases h; exact ⟨rfl, _, rfl⟩
  | setSelfCalibrate enabled =>
    cases taken with
    | idle => simp [MhZ19CState.kindIdx] at hk
    | setSelfCalibrate f => exact Sum.noConfusion h
    | readCo2AndTemperature f => cases h; exact ⟨rfl, _, rfl⟩
    | readCo2 f => cases h; exact ⟨rfl, _, rfl⟩
    | getFirmwareVersion f => cases h; exact ⟨rfl, _, rfl⟩

/-- When the taken state has the kind of the requested operation,
stepFinish never continues the loop. -/
lemma stepFinish_matched_not_inr (op : Command) (m3 : MhZ19C υ) (taken : MhZ19CState υ)
    (hk : taken.kindIdx = op.stateKind) (m2 : MhZ19C υ) :
    MhZ19C.stepFinish (ε := ε) op m3 taken ≠ .inr m2 := by
  intro h
  cases op with
  | readCo2AndTemperature =>
    cases taken with
    | readCo2AndTemperature f => exact decodeFinish_ne_inr _ _ _ _ _ h
    | idle => simp [MhZ19CState.kindIdx, Command.stateKind] at hk
    | readCo2 f => simp [MhZ19CState.kindIdx, Command.stateKind] at hk
    | getFirmwareVersion f => simp [MhZ19CState.kindIdx, Command.stateKind] at hk
    | setSelfCalibrate f => simp [MhZ19CState.kindIdx, Command.stateKind] at hk
  | readCo2 =>
    cases taken with
    | readCo2 f => exact decodeFinish_ne_inr _ _ _ _ _ h
    | idle => simp [MhZ19CState.kindIdx, Command.stateKind] at hk
    | readCo2AndTemperature f => simp [MhZ19CState.kindIdx, Command.stateKind] at hk
    | getFirmwareVersion f => simp [MhZ19CState.kindIdx, Command.stateKind] at hk
    | setSelfCalibrate f => simp [MhZ19CState.kindIdx, Command.stateKind] at hk
  | getFirmwareVersion =>
    cases taken with
    | getFirmwareVersion f => exact decodeFinish_ne_inr _ _ _ _ _ h
    | idle => simp [MhZ19CState.kindIdx, Command.stateKind] at hk
    | readCo2AndTemperature f => simp [MhZ19CState.kindIdx, Command.stateKind] at hk
    | readCo2 f => simp [MhZ19CState.kindIdx, Command.stateKind] at hk
    | setSelfCalibrate f => simp [MhZ19CState.kindIdx, Command.stateKind] at hk
  | setSelfCalibrate enabled =>
    cases taken with
    | setSelfCalibrate f => exact Sum.noConfusion h
    | idle => simp [MhZ19CState.kindIdx, Command.stateKind] at hk
    | readCo2AndTemperature f => simp [MhZ19CState.kindIdx, Command.stateKind] at hk
    | readCo2 f => simp [MhZ19CState.kindIdx, Command.stateKind] at hk
    | getFirmwareVersion f => simp [MhZ19CState.kindIdx, Command.stateKind] at hk

lemma kindIdx_eq_zero (s : MhZ19CState υ) : s.kindIdx = 0 ↔ s = .idle := by
  cases s <;> simp [MhZ19CState.kindIdx]

lemma startState_kind (op : Command) (u : υ) :
    (startState op u).kindIdx = op.stateKind := by
  cases op <;> rfl

lemma stateKind_ne_zero (op : Command) : op.stateKind ≠ 0 := by
  cases op <;> simp [Command.stateKind]

/-- Classification of the loop-body exits that return to the caller, for a
busy driver whose uart slot is empty: WouldBlock and transport errors leave
the driver busy with an empty slot; Ok and protocol errors leave it Idle
with the slot refilled; and every error is either a protocol error or a
tagged transport error. -/
lemma stepGo_inl_spec (iface : UartOps υ ε) (op : Command) (m1 : MhZ19C υ)
    (hst : m1.state ≠ .idle) (hu : m1.uart = none)
    (r : NbRes (Error ε) OpResult) (m2 : MhZ19C υ)
    (h : MhZ19C.stepGo iface op m1 = some (.inl (r, m2))) :
    (r = .wouldBlock → m2.state ≠ .idle ∧ m2.uart = none) ∧
    (∀ te, r = .err (.uartError te) → m2.state ≠ .idle ∧ m2.uart = none) ∧
    (∀ e, r = .err e → e.isProtocol = true → m2.state = .idle ∧ ∃ u, m2.uart = some u) ∧
    (∀ v, r = .ok v → m2.state = .idle ∧ ∃ u, m2.uart = some u) ∧
    (∀ e, r = .err e → e.isProtocol = true ∨ ∃ te, e = .uartError te) := by
  rw [MhZ19C.stepGo] at h
  rcases hp : MhZ19C.pollState iface m1.state with _ | ⟨r0, s'⟩ <;> rw [hp] at h
  · cases h
  · have hkind := pollState_kind iface m1.state r0 s' hp
    have hs'ne : s' ≠ .idle := by
      intro hcon
      rw [hcon] at hkind
      exact hst ((kindIdx_eq_zero m1.state).mp hkind.1.symm)
    cases r0 with
    | wouldBlock =>
      cases h
      refine ⟨fun _ => ⟨hs'ne, hu⟩, ?_, ?_, ?_, ?_⟩
      · intro te he; cases he
      · intro e he; cases he
      · intro v hv; cases hv
      · intro e he; cases he
    | err e0 =>
      obtain ⟨te, hte⟩ := hkind.2 e0 rfl
      cases h
      refine ⟨?_, ?_, ?_, ?_, ?_⟩
      · intro hcon; cases hcon
      · intro te2 he; exact ⟨hs'ne, hu⟩
      · intro e he hprot
        cases he
        rw [hte] at hprot
        cases hprot
      · intro v hv; cases hv
      · intro e he
        cases he
        exact Or.inr ⟨te, hte⟩
    | ok v0 =>
      have hfin := Option.some.inj h
      have hspec := stepFinish_inl_spec op { m1 with state := .idle } s' r m2 hfin
      refine ⟨?_, ?_, ?_, ?_, ?_⟩
      · intro hcon; exact absurd hcon hspec.2.2.2
      · intro te he
        have := hspec.2.2.1 (.uartError te) he
        cases this
      · intro e he hprot
        exact ⟨hspec.1, hspec.2.1⟩
      · intro v hv
        exact ⟨hspec.1, hspec.2.1⟩
      · intro e he
        exact Or.inl (hspec.2.2.1 e he)

/-- A loop continuation always leaves the driver Idle with the uart
recovered into the slot. -/
lemma stepGo_inr_spec (iface : UartOps υ ε) (op : Command) (m1 : MhZ19C υ)
    (hst : m1.state ≠ .idle) (m2 : MhZ19C υ)
    (h : MhZ19C.stepGo iface op m1 = some (.inr m2)) :
    m2.state = .idle ∧ ∃ u, m2.uart = some u := by
  rw [MhZ19C.stepGo] at h
  rcases hp : MhZ19C.pollState iface m1.state with _ | ⟨r0, s'⟩ <;> rw [hp] at h
  · cases h
  · have hkind := pollState_kind iface m1.state r0 s' hp
    have hs'k : s'.kindIdx ≠ 0 := by
      have h1 := hkind.1
      intro hcon
      exact hst ((kindIdx_eq_zero m1.state).mp (by omega))
    cases r0 with
    | wouldBlock => cases h
    | err e0 => cases h
    | ok v0 =>
      have hfin := Option.some.inj h
      have := stepFinish_inr_spec op { m1 with state := .idle } s' m2 hs'k hfin
      exact ⟨this.1, this.2⟩

/-- When the in-flight state matches the requested operation, the loop body
never continues. -/
lemma stepGo_matched_not_inr (iface : UartOps υ ε) (op : Command) (m1 : MhZ19C υ)
    (hk : m1.state.kindIdx = op.stateKind) (m2 : MhZ19C υ) :
    MhZ19C.stepGo iface op m1 ≠ some (.inr m2) := by
  intro h
  rw [MhZ19C.stepGo] at h
  rcases hp : MhZ19C.pollState iface m1.state with _ | ⟨r0, s'⟩ <;> rw [hp] at h
  · cases h
  · have hkind := pollState_kind iface m1.state r0 s' hp
    cases r0 with
    | wouldBlock => cases h
    | err e0 => cases h
    | ok v0 =>
      have hfin := Option.some.inj h
      exact stepFinish_matched_not_inr op { m1 with state := .idle } s'
        (by rw [hkind.1, hk]) m2 hfin

/-- Lift of stepGo_inl_spec through the lazy start: for any driver
satisfying the ownership invariant. -/
lemma stepOp_inl_spec (iface : UartOps υ ε) (op : Command) (m : MhZ19C υ)
    (hinv : m.uart.isSome ↔ m.state = .idle)
    (r : NbRes (Error ε) OpResult) (m2 : MhZ19C υ)
    (h : MhZ19C.stepOp iface op m = some (.inl (r, m2))) :
    (r = .wouldBlock → m2.state ≠ .idle ∧ m2.uart = none) ∧
    (∀ te, r = .err (.uartError te) → m2.state ≠ .idle ∧ m2.uart = none) ∧
    (∀ e, r = .err e → e.isProtocol = true → m2.state = .idle ∧ ∃ u, m2.uart = some u) ∧
    (∀ v, r = .ok v → m2.state = .idle ∧ ∃ u, m2.uart = some u) ∧
    (∀ e, r = .err e → e.isProtocol = true ∨ ∃ te, e = .uartError te) := by
  rcases m with ⟨st, uo⟩
  cases st with
  | idle =>
    rcases uo with _ | u
    · simp at hinv
    · have hne : (startState op u).kindIdx ≠ 0 := by
        rw [startState_kind]; exact stateKind_ne_zero op
      exact stepGo_inl_spec iface op ⟨startState op u, none⟩
        (fun hcon => hne (by
          rw [show startState op u = MhZ19CState.idle from hcon]; rfl)) rfl r m2 h
  | readCo2AndTemperature f =>
    rcases uo with _ | u
    · exact stepGo_inl_spec iface op ⟨.readCo2AndTemperature f, none⟩
        (fun hcon => by cases hcon) rfl r m2 h
    · simp at hinv
  | readCo2 f =>
    rcases uo with _ | u
    · exact stepGo_inl_spec iface op ⟨.readCo2 f, none⟩
        (fun hcon => by cases hcon) rfl r m2 h
    · simp at hinv
  | getFirmwareVersion f =>
    rcases uo with _ | u
    · exact stepGo_inl_spec iface op ⟨.getFirmwareVersion f, none⟩
        (fun hcon => by cases hcon) rfl r m2 h
    · simp at hinv
  | setSelfCalibrate f =>
    rcases uo with _ | u
    · exact stepGo_inl_spec iface op ⟨.setSelfCalibrate f, none⟩
        (fun hcon => by cases hcon) rfl r m2 h
    · simp at hinv

/-- A loop continuation of a public operation leaves the driver Idle with
the uart slot refilled (no ownership invariant needed: recovery always
refills the slot). -/
lemma stepOp_inr_spec (iface : UartOps υ ε) (op : Command) (m : MhZ19C υ)
    (m2 : MhZ19C υ) (h : MhZ19C.stepOp iface op m = some (.inr m2)) :
    m2.state = .idle ∧ ∃ u, m2.uart = some u := by
  rcases m with ⟨st, uo⟩
  cases st with
  | idle =>
    rcases uo with _ | u
    · cases h
    · exact absurd h (by
        intro hcon
        exact stepGo_matched_not_inr iface op ⟨startState op u, none⟩
          (by rw [startState_kind]) m2 hcon)
  | readCo2AndTemperature f =>
    exact stepGo_inr_spec iface op ⟨.readCo2AndTemperature f, uo⟩
      (fun hcon => by cases hcon) m2 h
  | readCo2 f =>
    exact stepGo_inr_spec iface op ⟨.readCo2 f, uo⟩ (fun hcon => by cases hcon) m2 h
  | getFirmwareVersion f =>
    exact stepGo_inr_spec iface op ⟨.getFirmwareVersion f, uo⟩
      (fun hcon => by cases hcon) m2 h
  | setSelfCalibrate f =>
    exact stepGo_inr_spec iface op ⟨.setSelfCalibrate f, uo⟩
      (fun hcon => by cases hcon) m2 h

/-- From an Idle driver with an occupied slot, one loop iteration never
continues: the freshly started operation always matches the request. -/
lemma stepOp_idle_not_inr (iface : UartOps υ ε) (op : Command) (u : υ) (m2 : MhZ19C υ) :
    MhZ19C.stepOp iface op ⟨.idle, some u⟩ ≠ some (.inr m2) := by
  intro h
  exact stepGo_matched_not_inr iface op ⟨startState op u, none⟩
    (by rw [startState_kind]) m2 h

/-- Packaging of the exit classification together with the ownership
invariant it implies for the resulting driver. -/
lemma specToConclusions (r : NbRes (Error ε) OpResult) (m2 : MhZ19C υ)
    (spec : (r = .wouldBlock → m2.state ≠ .idle ∧ m2.uart = none) ∧
      (∀ te, r = .err (.uartError te) → m2.state ≠ .idle ∧ m2.uart = none) ∧
      (∀ e, r = .err e → e.isProtocol = true → m2.state = .idle ∧ ∃ u, m2.uart = some u) ∧
      (∀ v, r = .ok v → m2.state = .idle ∧ ∃ u, m2.uart = some u) ∧
      (∀ e, r = .err e → e.isProtocol = true ∨ ∃ te, e = .uartError te)) :
    (m2.uart.isSome ↔ m2.state = .idle) ∧
    (r = .wouldBlock → m2.state ≠ .idle ∧ m2.uart = none) ∧
    (∀ te, r = .err (.uartError te) → m2.state ≠ .idle ∧ m2.uart = none) ∧
    (∀ e, r = .err e → e.isProtocol = true → m2.state = .idle ∧ m2.uart.isSome) ∧
    (∀ v, r = .ok v → m2.state = .idle ∧ m2.uart.isSome) ∧
    (∀ e, r = .err e → e.isProtocol = true ∨ ∃ te, e = .uartError te) := by
  obtain ⟨s1, s2, s3, s4, s5⟩ := spec
  have hiff : m2.uart.isSome ↔ m2.state = .idle := by
    cases r with
    | ok v =>
      obtain ⟨hst, u, hu⟩ := s4 v rfl
      rw [hst, hu]; simp
    | wouldBlock =>
      obtain ⟨hst, hu⟩ := s1 rfl
      rw [hu]; simp [hst]
    | err e =>
      rcases s5 e rfl with hprot | ⟨te, hte⟩
      · obtain ⟨hst, u, hu⟩ := s3 e rfl hprot
        rw [hst, hu]; simp
      · subst hte
        obtain ⟨hst, hu⟩ := s2 te rfl
        rw [hu]; simp [hst]
  refine ⟨hiff, s1, s2, ?_, ?_, s5⟩
  · intro e he hp
    obtain ⟨hst, u, hu⟩ := s3 e he hp
    exact ⟨hst, by rw [hu]; rfl⟩
  · intro v hv
    obtain ⟨hst, u, hu⟩ := s4 v hv
    exact ⟨hst, by rw [hu]; rfl⟩

/-- Full classification of a public driver call, for any driver satisfying
the ownership invariant: the invariant is preserved; WouldBlock and
transport errors leave the driver Busy with the uart still inside the
in-flight future (slot empty); Ok and protocol errors leave it Idle with
the uart back in the slot; and every fatal error is either a protocol
error or a tagged transport error. -/
lemma callOp_spec (iface : UartOps υ ε) (op : Command) (m : MhZ19C υ)
    (hinv : m.uart.isSome ↔ m.state = .idle)
    (r : NbRes (Error ε) OpResult) (m' : MhZ19C υ)
    (h : MhZ19C.callOp iface op m = some (r, m')) :
    (m'.uart.isSome ↔ m'.state = .idle) ∧
    (r = .wouldBlock → m'.state ≠ .idle ∧ m'.uart = none) ∧
    (∀ te, r = .err (.uartError te) → m'.state ≠ .idle ∧ m'.uart = none) ∧
    (∀ e, r = .err e → e.isProtocol = true → m'.state = .idle ∧ m'.uart.isSome) ∧
    (∀ v, r = .ok v → m'.state = .idle ∧ m'.uart.isSome) ∧
    (∀ e, r = .err e → e.isProtocol = true ∨ ∃ te, e = .uartError te) := by
  rw [MhZ19C.callOp] at h
  rcases hs : MhZ19C.stepOp iface op m with _ | x <;> rw [hs] at h
  · cases h
  · cases x with
    | inl p =>
      rcases p with ⟨r0, m2⟩
      cases h
      exact specToConclusions r m' (stepOp_inl_spec iface op m hinv r m' hs)
    | inr mm =>
      obtain ⟨hst2, u2, hu2⟩ := stepOp_inr_spec iface op m mm hs
      simp only at h
      rcases hs2 : MhZ19C.stepOp iface op mm with _ | x2 <;> rw [hs2] at h
      · cases h
      · cases x2 with
        | inl p2 =>
          rcases p2 with ⟨r0, m2⟩
          cases h
          exact specToConclusions r m'
            (stepOp_inl_spec iface op mm (by rw [hu2, hst2]; simp) r m' hs2)
        | inr mm2 =>
          exfalso
          have hmm : mm = ⟨.idle, some u2⟩ := by
            rcases mm with ⟨st2, uo2⟩
            simp only at hst2 hu2
            rw [hst2, hu2]
          rw [hmm] at hs2
          exact stepOp_idle_not_inr iface op u2 mm2 hs2

/-- C1 (amended): when the driver is Busy with an in-flight operation of a
different kind and polling that operation completes it, the call for O
recovers the transport to Idle but does not stop there: it immediately
starts O in the same call (the loop continues), so the call behaves
exactly like a fresh call from the recovered Idle driver and returns
WouldBlock only if O itself then suspends; the caller is not forced to
call again. -/
theorem c1_amended_recover_then_start :
    ∀ (υ ε : Type) (iface : UartOps υ ε) (op : Command) (m m' : MhZ19C υ),
    MhZ19C.stepOp iface op m = some (.inr m') →
    m'.state = .idle ∧ m'.uart.isSome ∧
      MhZ19C.callOp iface op m = MhZ19C.callOp iface op m' := by
  intro υ ε iface op m m' h
  obtain ⟨hst, u, hu⟩ := stepOp_inr_spec iface op m m' h
  refine ⟨hst, by rw [hu]; rfl, ?_⟩
  have hm' : m' = ⟨.idle, some u⟩ := by
    rcases m' with ⟨st, uo⟩
    simp only at hst hu
    rw [hst, hu]
  rw [MhZ19C.callOp, h]
  simp only
  conv_rhs => rw [MhZ19C.callOp]
  rcases hs2 : MhZ19C.stepOp iface op m' with _ | x2
  · rfl
  · cases x2 with
    | inl p => rfl
    | inr mm2 =>
      exfalso
      rw [hm'] at hs2
      exact stepOp_idle_not_inr iface op u mm2 hs2

/-- The driver state after read_co2_ppm has written its command, flushed,
and suspended on the first response byte against c1mock. -/
def c1midDriver : MhZ19C (SerialMock Nat) :=
  ⟨.readCo2 (.read ⟨⟨oks READ_CO2_RESPONSE, List.replicate 9 (.ok ()), [],
    [0xff, 0x01, 0x86, 0x00, 0x00, 0x00, 0x00, 0x00, 0x79], []⟩,
    List.replicate 9 0, 0, 9⟩), none⟩

/-- The recovered Idle driver after set_self_calibrate polls the in-flight
read-CO2 operation of c1midDriver to completion. -/
def c1recDriver : MhZ19C (SerialMock Nat) :=
  ⟨.idle, some ⟨[], List.replicate 9 (.ok ()), [],
    [0xff, 0x01, 0x86, 0x00, 0x00, 0x00, 0x00, 0x00, 0x79], READ_CO2_RESPONSE⟩⟩

/-- Witness for c1_amended_recover_then_start: the concrete scenario of the
counterexample, seen at the level of one loop iteration. -/
theorem c1_amended_recover_then_start_witness :
    MhZ19C.stepOp (mockOps Nat) (.setSelfCalibrate true) c1midDriver =
      some (.inr c1recDriver) ∧
    c1recDriver.state = .idle ∧ c1recDriver.uart.isSome ∧
      MhZ19C.callOp (mockOps Nat) (.setSelfCalibrate true) c1midDriver =
        MhZ19C.callOp (mockOps Nat) (.setSelfCalibrate true) c1recDriver :=
  ⟨rfl, c1_amended_recover_then_start (SerialMock Nat) Nat (mockOps Nat)
    (.setSelfCalibrate true) c1midDriver c1recDriver rfl⟩

/-- C2 (amended): for every public operation on a driver satisfying the
ownership invariant, a fatal protocol error (invalid frame, not a
response, op-code mismatch) ends the call recovered to Idle with the
transport back in the uart slot; a fatal transport error is propagated
tagged as UartError but leaves the driver Busy, the in-flight future still
holding the transport (the slot stays empty); and every fatal error is one
of these two kinds. -/
theorem c2_amended_error_recovery :
    ∀ (υ ε : Type) (iface : UartOps υ ε) (op : Command) (m : MhZ19C υ)
      (r : NbRes (Error ε) OpResult) (m' : MhZ19C υ),
    (m.uart.isSome ↔ m.state = .idle) →
    MhZ19C.callOp iface op m = some (r, m') →
    (∀ e, r = .err e → e.isProtocol = true → m'.state = .idle ∧ m'.uart.isSome) ∧
    (∀ te, r = .err (.uartError te) → m'.state ≠ .idle ∧ m'.uart = none) ∧
    (∀ e, r = .err e → e.isProtocol = true ∨ ∃ te, e = .uartError te) := by
  intro υ ε iface op m r m' hinv h
  have hspec := callOp_spec iface op m hinv r m' h
  exact ⟨hspec.2.2.2.1, hspec.2.2.1, hspec.2.2.2.2.2⟩

/-- The Busy driver left behind by a fatal transport error on the first
write of read_co2_ppm. -/
def c2finalDriver : MhZ19C (SerialMock Nat) :=
  ⟨.readCo2 (.write ⟨⟨[], [], [], [], []⟩,
    [0xff, 0x01, 0x86, 0x00, 0x00, 0x00, 0x00, 0x00, 0x79], 0⟩
    (List.replicate 9 0) 9), none⟩

/-- Witness for c2_amended_error_recovery: the transport-error run of the
counterexample, with the classification applied to it. -/
theorem c2_amended_error_recovery_witness :
    ((MhZ19C.new (mkMock [] [.err 7])).uart.isSome ↔
      (MhZ19C.new (mkMock [] [.err 7])).state = .idle) ∧
    MhZ19C.callOp (mockOps Nat) .readCo2 (MhZ19C.new (mkMock [] [.err 7])) =
      some (.err (.uartError 7), c2finalDriver) ∧
    c2finalDriver.state ≠ .idle ∧ c2finalDriver.uart = none :=
  ⟨by decide, rfl,
    (c2_amended_error_recovery (SerialMock Nat) Nat (mockOps Nat) .readCo2
      (MhZ19C.new (mkMock [] [.err 7])) (.err (.uartError 7)) c2finalDriver
      (by decide) rfl).2.1 7 rfl⟩

/-- Driver states reachable by any sequence of public calls (including the
capability upgrade), over arbitrary transports and transport results. -/
inductive Reachable {υ : Type} : MhZ19C υ → Prop where
  | new (uart : υ) : Reachable (MhZ19C.new uart)
  | step {ε : Type} (iface : UartOps υ ε) (op : Command) {m : MhZ19C υ}
      (r : NbRes (Error ε) OpResult) {m' : MhZ19C υ} :
      Reachable m → MhZ19C.callOp iface op m = some (r, m') → Reachable m'
  | upgrade {ε : Type} (iface : UartOps υ ε) {m : MhZ19C υ}
      (r : NbRes (Error ε) Unit) {m' : MhZ19C υ} :
      Reachable m → MhZ19C.upgrade_to_v5 iface m = some (r, m') → Reachable m'

/-- The driver produced by upgrade_to_v5 is the one produced by the
underlying get_firmware_version call. -/
lemma upgrade_driver_eq (iface : UartOps υ ε) (m : MhZ19C υ)
    (r : NbRes (Error ε) Unit) (m' : MhZ19C υ)
    (h : MhZ19C.upgrade_to_v5 iface m = some (r, m')) :
    ∃ r0, MhZ19C.callOp iface .getFirmwareVersion m = some (r0, m') := by
  rw [MhZ19C.upgrade_to_v5, MhZ19C.get_firmware_version] at h
  rcases hc : MhZ19C.callOp iface .getFirmwareVersion m with _ | ⟨r0, m2⟩ <;> rw [hc] at h
  · cases h
  · cases r0 with
    | ok res =>
      simp only at h
      by_cases hfw : 0x35 ≤ (fwVersionOf res).getD 1 0
      · rw [if_pos hfw] at h
        cases h
        exact ⟨.ok res, rfl⟩
      · rw [if_neg hfw] at h
        cases h
        exact ⟨.ok res, rfl⟩
    | wouldBlock => cases h; exact ⟨.wouldBlock, rfl⟩
    | err e => cases h; exact ⟨.err e, rfl⟩

/-- C4: in every reachable driver state the uart slot is occupied exactly
when the driver is Idle — while Busy the in-flight future holds the
transport instead — so exactly one entity owns the transport, and taking
the uart out (in particular into_inner, from any state) never fails. -/
theorem c4_exclusive_ownership :
    ∀ (υ : Type) (m : MhZ19C υ), Reachable m →
    (m.uart.isSome ↔ m.state = .idle) ∧ (MhZ19C.into_inner m).isSome := by
  intro υ m hreach
  have hinv : m.uart.isSome ↔ m.state = .idle := by
    induction hreach with
    | new u => simp [MhZ19C.new]
    | step iface op r hm hcall ih =>
      exact (callOp_spec iface op _ ih _ _ hcall).1
    | upgrade iface r hm hup ih =>
      obtain ⟨r0, hc⟩ := upgrade_driver_eq iface _ r _ hup
      exact (callOp_spec iface .getFirmwareVersion _ ih r0 _ hc).1
  refine ⟨hinv, ?_⟩
  rcases m with ⟨st, uo⟩
  cases st with
  | idle =>
    rw [MhZ19C.into_inner]
    exact hinv.mpr rfl
  | readCo2AndTemperature f => rfl
  | readCo2 f => rfl
  | getFirmwareVersion f => rfl
  | setSelfCalibrate f => rfl

/-- The Idle driver left by a completed successful read-CO2 call on the
standard response script. -/
def c4witnessDriver : MhZ19C (SerialMock Nat) :=
  ⟨.idle, some ⟨[], [], [],
    [0xff, 0x01, 0x86, 0x00, 0x00, 0x00, 0x00, 0x00, 0x79], READ_CO2_RESPONSE⟩⟩

/-- Witness for c4_exclusive_ownership: the invariant evaluated on a
concretely reachable state, one completed call after construction. -/
theorem c4_exclusive_ownership_witness :
    (c4witnessDriver.uart.isSome ↔ c4witnessDriver.state = .idle) ∧
    (MhZ19C.into_inner c4witnessDriver).isSome :=
  c4_exclusive_ownership (SerialMock Nat) c4witnessDriver
    (Reachable.step (mockOps Nat) .readCo2 (.ok (.co2 800))
      (Reachable.new (mkMock (oks READ_CO2_RESPONSE) (List.replicate 9 (.ok ()))))
      rfl)

/-- C3 (amended): upgrade_to_v5 drives get_firmware_version to completion
and succeeds — returning the firmware-5 capability over the same driver,
which then exposes read_co2_and_temp — exactly when byte 1 (the second
character) of the 4-character firmware version string is the character 5
or greater, and otherwise fails with NotSupportedByFirmware carrying the
version string; in particular a reported version 0400 makes the upgrade
fail with the error carrying 0400, and 0515 makes it succeed and allows
read_co2_and_temp. -/
theorem c3_amended_version_gate :
    (∀ (υ ε : Type) (iface : UartOps υ ε) (m m' : MhZ19C υ) (fw : List Nat),
      MhZ19C.callOp iface .getFirmwareVersion m = some (.ok (.firmwareVersion fw), m') →
      (0x35 ≤ fw.getD 1 0 → MhZ19C.upgrade_to_v5 iface m = some (.ok (), m')) ∧
      (fw.getD 1 0 < 0x35 →
        MhZ19C.upgrade_to_v5 iface m = some (.err (.notSupportedByFirmware fw), m'))) ∧
    (MhZ19C.upgrade_to_v5 (mockOps Nat)
        (MhZ19C.new (mkMock (oks FIRMWARE_0400_RESPONSE) (List.replicate 9 (.ok ()))))).map
        (fun p => p.1) = some (.err (.notSupportedByFirmware [0x30, 0x34, 0x30, 0x30])) ∧
    (MhZ19C.upgrade_to_v5 (mockOps Nat)
        (MhZ19C.new (mkMock (oks (FIRMWARE_0515_RESPONSE ++ READ_CO2_AND_TEMPERATURE_RESPONSE))
          (List.replicate 18 (.ok ()))))).map (fun p => p.1) = some (.ok ()) ∧
    ((MhZ19C.upgrade_to_v5 (mockOps Nat)
        (MhZ19C.new (mkMock (oks (FIRMWARE_0515_RESPONSE ++ READ_CO2_AND_TEMPERATURE_RESPONSE))
          (List.replicate 18 (.ok ()))))).bind
      (fun p => MhZ19C.read_co2_and_temp (mockOps Nat) p.2)).map (fun p => p.1) =
      some (.ok (.co2AndTemp 800 2400)) := by
  refine ⟨?_, rfl, rfl, rfl⟩
  intro υ ε iface m m' fw hc
  rw [MhZ19C.upgrade_to_v5, MhZ19C.get_firmware_version, hc]
  simp only [fwVersionOf]
  constructor
  · intro hge
    rw [if_pos hge]
  · intro hlt
    rw [if_neg (by omega)]

/-- The Idle driver left by a completed get_firmware_version call on the
0515 response script. -/
def c3fwDriver : MhZ19C (SerialMock Nat) :=
  ⟨.idle, some ⟨[], [], [],
    [0xff, 0x01, 0xa0, 0x00, 0x00, 0x00, 0x00, 0x00, 0x5f], FIRMWARE_0515_RESPONSE⟩⟩

/-- Witness for c3_amended_version_gate: the gate applied to the concrete
0515 firmware run. -/
theorem c3_amended_version_gate_witness :
    0x35 ≤ ([0x30, 0x35, 0x31, 0x35] : List Nat).getD 1 0 ∧
    MhZ19C.upgrade_to_v5 (mockOps Nat)
        (MhZ19C.new (mkMock (oks FIRMWARE_0515_RESPONSE) (List.replicate 9 (.ok ())))) =
      some (.ok (), c3fwDriver) :=
  ⟨by decide,
    (c3_amended_version_gate.1 (SerialMock Nat) Nat (mockOps Nat)
      (MhZ19C.new (mkMock (oks FIRMWARE_0515_RESPONSE) (List.replicate 9 (.ok ()))))
      c3fwDriver [0x30, 0x35, 0x31, 0x35] rfl).1 (by decide)⟩
